import Mathlib

/-!
Verification of the Chorus `conductor` validator node against its
natural-language specification.

The Python sources are shallowly embedded:

* Python `bytes` values are `List Nat` (each entry a byte value).
* Python `str` values are `List Nat` of Unicode code points (all strings
  involved are ASCII, so `encode("utf-8")` is the identity on code points).
* The BLAKE3 hash (and SHA-256 where it occurs) is an explicit function
  parameter `H : List Nat → List Nat`; every theorem quantifies over it,
  or instantiates it with a concrete executable function in witnesses.
* Ed25519 signature verification is an explicit Boolean-oracle parameter.
* Fallible Python code returns `Except PyErr α`; Python `float` arithmetic
  in the difficulty-adjustment routine is modelled with exact rationals.
* Calls to the module-level `logging` logger (`logger.…` in
  `consensus.py`, `crypto.py`, `vdf.py`, and on `ConductorService` /
  `ValidatorNode`, whose `__init__` methods do assign `self.logger`) are
  modelled as no-ops: logging is explicitly out of scope for the
  specification.  The methods of `ConsensusModule` are different: they
  spell their logging calls `self.logger.…`, but `ConsensusModule.__init__`
  never assigns a `logger` attribute (and nothing else in the repository
  or its tests assigns one on a `ConsensusModule` instance), so in the
  real program the attribute lookup `self.logger` raises `AttributeError`
  at the first statement of `handle_commit`, `handle_blacklist_vote` and
  `reach_consensus`.  This is embedded explicitly: `ConsensusState` carries
  a Boolean `logger` field recording whether the instance attribute is
  set (`false` for every instance `__init__` builds), the embedded methods
  return `.error .attributeError` when it is unset, and the post-lookup
  bodies (in which the remaining `self.logger` calls are no-op log
  statements) are factored into `…_body` definitions so that the
  algorithmic content can also be analysed for a module whose `logger`
  attribute has been supplied externally.
-/

namespace Conductor

/-- Python byte strings: a list of byte values. -/
abbrev Bytes : Type := List Nat

/-- Python strings: a list of Unicode code points (ASCII throughout). -/
abbrev PyStr : Type := List Nat

/-- Error outcomes of the embedded Python code: the exception class that
a call raises. -/
inductive PyErr : Type where
  | nameError : PyErr
  | typeError : PyErr
  | valueError : PyErr
  | indexError : PyErr
  | overflowError : PyErr
  | consensusError : PyErr
  | attributeError : PyErr
  deriving DecidableEq, Repr

/-- The sixteen code points `"0123456789abcdef"` used by `hexdigest`. -/
def hexAlphabet : List Nat :=
  [48, 49, 50, 51, 52, 53, 54, 55, 56, 57, 97, 98, 99, 100, 101, 102]

/-- Code point of the lower-case hex digit of `n % 16`. -/
def hexChar (n : Nat) : Nat := hexAlphabet.getD (n % 16) 48

/-- Two hex code points of one byte, as in CPython `bytes.hex`. -/
def byteHex (b : Nat) : List Nat := [hexChar (b / 16), hexChar b]

/-- `bytes.hex()` / `hexdigest()`: the lower-case hex string of a byte
string, as a code-point list. -/
def bytesHex (bs : Bytes) : PyStr := (bs.map byteHex).flatten

/-- Embeds `conductor/hashing.py` `blake3_hash` on `bytes` input: the hex
digest string of the hash, for a hash oracle `H`. -/
def blake3HashBytes (H : Bytes → Bytes) (data : Bytes) : PyStr :=
  bytesHex (H data)

/-- `int.from_bytes(bs, "big")`. -/
def intFromBytesBE (bs : Bytes) : Nat :=
  bs.foldl (fun acc b => acc * 256 + b) 0

/-- `n.to_bytes(len, "big")` for `n < 256^len` (every call site first
reduces `n` modulo `2^256 = 256^32`, so the in-range case is the one
exercised). -/
def intToBytesBE : Nat → Nat → Bytes
  | 0, _ => []
  | l + 1, n => intToBytesBE l (n / 256) ++ [n % 256]

/-- Binary modular exponentiation with an explicit fuel bound on the bit
length of the exponent (the algorithm CPython uses for three-argument
`pow`); `powModAux_eq` identifies it with `b ^ e % m`. -/
def powModAux : Nat → Nat → Nat → Nat → Nat
  | 0, _, _, m => 1 % m
  | fuel + 1, b, e, m =>
      if e = 0 then 1 % m
      else
        let r := powModAux fuel (b * b % m) (e / 2) m
        if e % 2 = 1 then b * r % m else r

/-- Python `pow(b, e, m)`: modular exponentiation.  The fuel 300 covers
every exponent below `2^300`; the only exponent the embedded code uses is
`field_size - 2 < 2^256`. -/
def pyPow (b e m : Nat) : Nat := powModAux 300 b e m

theorem powModAux_eq (fuel : Nat) : ∀ b e m, 0 < m → e < 2 ^ fuel →
    powModAux fuel b e m = b ^ e % m := by
  induction fuel with
  | zero =>
      intro b e m hm he
      interval_cases e
      simp [powModAux]
  | succ f ih =>
      intro b e m hm he
      rw [powModAux]
      by_cases h0 : e = 0
      · simp [h0]
      · simp only [h0, if_false]
        have hdiv : e / 2 < 2 ^ f := by
          have h2 : 2 ^ (f + 1) = 2 * 2 ^ f := by rw [pow_succ]; ring
          omega
        have key : powModAux f (b * b % m) (e / 2) m = b ^ (2 * (e / 2)) % m := by
          rw [ih _ _ _ hm hdiv, ← Nat.pow_mod, pow_mul, sq]
        by_cases hodd : e % 2 = 1
        · simp only [hodd, if_true]
          have heq : e = 2 * (e / 2) + 1 := by omega
          rw [key]
          conv_lhs =>
            rw [Nat.mul_mod, Nat.mod_mod_of_dvd (b ^ (2 * (e / 2))) dvd_rfl,
              ← Nat.mul_mod]
          rw [mul_comm, ← pow_succ, ← heq]
        · simp only [hodd, if_false]
          have heq : e = 2 * (e / 2) := by omega
          rw [key, ← heq]

/-- `pyPow` agrees with mathematical modular exponentiation on every
exponent the embedding uses. -/
theorem pyPow_eq (b e m : Nat) (hm : 0 < m) (he : e < 2 ^ 300) :
    pyPow b e m = b ^ e % m :=
  powModAux_eq 300 b e m hm he

/-- Python `%` on integers with a positive modulus (always non-negative),
returned as a natural number. -/
def pyIntMod (a : Int) (m : Nat) : Nat := (a % (m : Int)).toNat

/-! ## `conductor/vdf.py` — `ChorusVDF` -/

/-- `GENESIS_SEED = b"chorus_mainnet_v1_genesis_20241023"` as bytes. -/
def GENESIS_SEED : Bytes :=
  [99, 104, 111, 114, 117, 115, 95, 109, 97, 105, 110, 110, 101, 116, 95,
   118, 49, 95, 103, 101, 110, 101, 115, 105, 115, 95, 50, 48, 50, 52, 49,
   48, 50, 51]

/-- `day_number.to_bytes(4, "big")` for `day_number < 2^32`. -/
def be32 (n : Nat) : Bytes :=
  [n / 16777216 % 256, n / 65536 % 256, n / 256 % 256, n % 256]

/-- `ChorusVDF.compute_day_seed`: `H(genesis_seed ++ day_be32)`; raises
`OverflowError` (from `to_bytes(4, "big")`) when the day number does not
fit four bytes. -/
def compute_day_seed (H : Bytes → Bytes) (genesis : Bytes) (day : Nat) :
    Except PyErr Bytes :=
  if day < 4294967296 then .ok (H (genesis ++ be32 day)) else
    .error .overflowError

/-- `ChorusVDF.compute_day_proof`: the hash chain of length `iterations`
applied to the day seed (the progress callback `_on_progress` is `pass`). -/
def compute_day_proof (H : Bytes → Bytes) (genesis : Bytes)
    (iterations day : Nat) : Except PyErr Bytes :=
  (compute_day_seed H genesis day).map (fun seed => H^[iterations] seed)

/-- `ChorusVDF.verify_day_proof`: recompute and byte-compare. -/
def verify_day_proof (H : Bytes → Bytes) (genesis : Bytes)
    (iterations day : Nat) (proof : Bytes) : Except PyErr Bool :=
  (compute_day_proof H genesis iterations day).map
    (fun expected => decide (proof = expected))

/-- C8: `compute_day_proof` is a pure function of the day (hence returns
the same value on every call), that value is the `iterations`-fold hash
iterate of `H(genesis_seed ∥ day_be32)` and is 32 bytes long whenever `H`
produces 32-byte digests, and `verify_day_proof day proof` returns `true`
exactly when `proof` equals that value. -/
theorem c8_vdf_determinism_and_verify (H : Bytes → Bytes) (genesis : Bytes)
    (iterations day : Nat) (proof : Bytes)
    (hday : day < 4294967296)
    (hH : ∀ bs, (H bs).length = 32) :
    compute_day_proof H genesis iterations day =
      .ok (H^[iterations] (H (genesis ++ be32 day))) ∧
    (∀ v, compute_day_proof H genesis iterations day = .ok v →
      v.length = 32) ∧
    (verify_day_proof H genesis iterations day proof = .ok true ↔
      proof = H^[iterations] (H (genesis ++ be32 day))) := by
  have hcomp : compute_day_proof H genesis iterations day =
      .ok (H^[iterations] (H (genesis ++ be32 day))) := by
    simp [compute_day_proof, compute_day_seed, hday, Except.map]
  refine ⟨hcomp, ?_, ?_⟩
  · intro v hv
    rw [hcomp] at hv
    cases hv
    cases iterations with
    | zero => simpa using hH _
    | succ n => rw [Function.iterate_succ_apply']; exact hH _
  · rw [verify_day_proof, hcomp]
    constructor
    · intro h
      simpa [Except.map] using h
    · intro h
      simp [Except.map, h]

/-- Witness for C8 at a concrete instance: `H` maps everything to 32 zero
bytes, day 1, two iterations; the correct proof verifies. -/
theorem c8_vdf_determinism_and_verify_witness :
    (1 : Nat) < 4294967296 ∧
    verify_day_proof (fun _ => List.replicate 32 0) GENESIS_SEED 2 1
      (List.replicate 32 0) = .ok true :=
  ⟨by decide,
   ((c8_vdf_determinism_and_verify (fun _ => List.replicate 32 0)
      GENESIS_SEED 2 1 (List.replicate 32 0) (by decide)
      (fun _ => by simp)).2.2).mpr (by decide)⟩

/-! ## `conductor/crypto.py` — `ThresholdCrypto` (Shamir sharing) -/

/-- `ThresholdCrypto.field_size = 2**256` (written as a numeral so the
kernel can compute with it; `fieldSize_eq` relates it to the power). -/
def fieldSize : Nat :=
  115792089237316195423570985008687907853269984665640564039457584007913129639936

theorem fieldSize_eq : fieldSize = 2 ^ 256 := by norm_num [fieldSize]

/-- `ThresholdCrypto._evaluate_polynomial`: Horner evaluation over the
reversed coefficient list, reducing modulo `field_size` at each step. -/
def evaluate_polynomial (coefficients : List Nat) (x : Nat) : Nat :=
  coefficients.reverse.foldl (fun result coeff => (result * x + coeff) % fieldSize) 0

/-- `ThresholdCrypto.generate_shares`, with the `secrets.randbelow` draws
passed in explicitly as `rand` (the `t - 1` random polynomial
coefficients) and SHA-256 as a hash oracle for the over-long-secret
branch: evaluates the polynomial at `1, …, n` and renders each value as
32 big-endian bytes. -/
def generate_shares (sha256 : Bytes → Bytes) (n : Nat) (secret : Bytes)
    (rand : List Nat) : List Bytes :=
  let secret32 := if 32 < secret.length then sha256 secret else secret
  let secret_int := intFromBytesBE secret32 % fieldSize
  let coefficients := secret_int :: rand
  (List.range n).map
    (fun i => intToBytesBE 32 (evaluate_polynomial coefficients (i + 1)))

/-- The Fermat "inverse" the source computes:
`pow(denominator, field_size - 2, field_size)`.  (`field_size = 2^256` is
not prime, so this is not in general a modular inverse.) -/
def fermatInv (denominator : Nat) : Nat :=
  pyPow denominator (fieldSize - 2) fieldSize

/-- The inner loop of `ThresholdCrypto.reconstruct_secret` computing the
Lagrange basis factor for the `i`-th share. -/
def lagrange_basis (shares : List (Int × Bytes)) (i : Nat) (xi : Int) : Nat :=
  shares.enum.foldl
    (fun basis jp =>
      if jp.1 = i then basis
      else
        let numerator := pyIntMod (-jp.2.1) fieldSize
        let denominator := pyIntMod (xi - jp.2.1) fieldSize
        basis * numerator * fermatInv denominator % fieldSize)
    1

/-- `ThresholdCrypto.reconstruct_secret`: Lagrange interpolation at 0 over
the given `(index, share_bytes)` pairs, raising `ValueError` below the
threshold `t`. -/
def reconstruct_secret (t : Nat) (shares : List (Int × Bytes)) :
    Except PyErr Bytes :=
  if shares.length < t then .error .valueError
  else
    .ok (intToBytesBE 32
      (shares.enum.foldl
        (fun secret ip =>
          (secret + intFromBytesBE ip.2.2 * lagrange_basis shares ip.1 ip.2.1)
            % fieldSize)
        0))

set_option maxRecDepth 8000 in
/-- The Fermat "inverse" of `field_size - 1` is `1`, not the true modular
inverse `field_size - 1`: the exponent `field_size - 2` is even, so
`(-1)^(field_size - 2) ≡ 1`. -/
theorem fermatInv_field_sub_one : fermatInv (fieldSize - 1) = 1 := by decide

set_option maxRecDepth 8000 in
/-- C3: the Shamir round-trip fails on the code.  With `n = 2`, `t = 2`,
the 32-zero-byte secret and random coefficient 1, `generate_shares`
produces the shares `(1, 1)` and `(2, 2)` (as 32-byte big-endian values),
but `reconstruct_secret` on exactly those two shares returns the 32-byte
encoding of `field_size - 4` instead of the secret: `field_size = 2^256`
is not prime (contrary to the source comment "large prime field"), so
`pow(d, field_size - 2, field_size)` is `d⁻²`, not `d⁻¹`, for odd `d`,
and does not exist at all for even `d`.  The repository's own test
`test_reconstruct_secret` asserts the round-trip. -/
theorem c3_shamir_round_trip_fails :
    generate_shares (fun _ => []) 2 (List.replicate 32 0) [1] =
      [intToBytesBE 32 1, intToBytesBE 32 2] ∧
    reconstruct_secret 2
        [((1 : Int), intToBytesBE 32 1), ((2 : Int), intToBytesBE 32 2)] =
      .ok (intToBytesBE 32 (fieldSize - 4)) ∧
    intToBytesBE 32 (fieldSize - 4) ≠ List.replicate 32 0 := by
  refine ⟨by decide, by rfl, by decide⟩

/-! ## `conductor/crypto.py` — `aggregate_signatures` and
`conductor/consensus.py` — `CommonCoin` -/

/-- `ThresholdCrypto.aggregate_signatures`: raises `ValueError` below the
threshold, otherwise concatenates the shares in list order (the
`len(share) >= 4` test has identical branches, so it is a plain
concatenation). -/
def aggregate_signatures (t : Nat) (shares : List Bytes) :
    Except PyErr Bytes :=
  if shares.length < t then .error .valueError else .ok shares.flatten

/-- Python `%`-formatting of a one-character string by an integer: a
character other than `"%"` is a format string with no conversion
specifier, so the argument is left over and `TypeError` is raised
("not all arguments converted during string formatting"); the bare
`"%"` character is an incomplete format and raises `ValueError`. -/
def pyCharFormatModInt (c : Nat) (_n : Int) : Except PyErr Nat :=
  if c = 37 then .error .valueError else .error .typeError

/-- `CommonCoin.compute_coin`: checks the share count, aggregates, hashes
the aggregate to a hex string, and then evaluates `coin_hash[0] % 2` —
the `%` of a one-character string by an integer (`blake3_hash` returns
`hexdigest()`, a `str`).  `day` and `round_num` only enter the unused
local `message`. -/
def compute_coin (H : Bytes → Bytes) (t : Nat) (_day _round : Nat)
    (shares : List Bytes) : Except PyErr Nat :=
  if shares.length < t then .error .valueError
  else
    match aggregate_signatures t shares with
    | .error e => .error e
    | .ok aggregated =>
        match blake3HashBytes H aggregated with
        | [] => .error .indexError
        | c :: _ => pyCharFormatModInt c 2

theorem hexChar_ne_percent (n : Nat) : hexChar n ≠ 37 := by
  have h16 : n % 16 < 16 := Nat.mod_lt n (by norm_num)
  rw [hexChar]
  set k := n % 16 with hk
  interval_cases k <;> decide

/-- C4: `compute_coin` never returns a coin value.  For every hash
oracle with nonempty digests and every list of at least `t` shares, it
raises `TypeError`: `blake3_hash` returns a hex *string*, and
`coin_hash[0] % 2` applies `%`-formatting to the first hex character
rather than taking a least significant bit.  The repository's own test
`test_compute_coin` asserts a value in `{0, 1}`. -/
theorem c4_compute_coin_raises_type_error (H : Bytes → Bytes)
    (t day round : Nat) (shares : List Bytes)
    (ht : t ≤ shares.length)
    (hH : ∀ bs, (H bs).length = 32) :
    compute_coin H t day round shares = .error .typeError := by
  rw [compute_coin]
  have hnl : ¬shares.length < t := by omega
  rw [if_neg hnl, aggregate_signatures, if_neg hnl]
  have hne : H shares.flatten ≠ [] := by
    intro h
    have := hH shares.flatten
    rw [h] at this
    simp at this
  obtain ⟨b, rest, hbr⟩ := List.exists_cons_of_ne_nil hne
  have hhex : blake3HashBytes H shares.flatten =
      hexChar (b / 16) :: hexChar b :: bytesHex rest := by
    rw [blake3HashBytes, bytesHex, hbr]
    simp [byteHex, bytesHex]
  simp [hhex, pyCharFormatModInt, hexChar_ne_percent (b / 16)]

/-- Witness for C4 at the repository's own test input: three one-byte
shares with `t = 3` and a constant 32-byte hash oracle. -/
theorem c4_compute_coin_raises_type_error_witness :
    3 ≤ ([[1], [2], [3]] : List Bytes).length ∧
    compute_coin (fun _ => List.replicate 32 0) 3 1 1 [[1], [2], [3]] =
      .error .typeError :=
  ⟨by decide,
   c4_compute_coin_raises_type_error (fun _ => List.replicate 32 0) 3 1 1
     [[1], [2], [3]] (by decide) (fun _ => by simp)⟩

/-! ## Python `dict` and `set` as insertion-ordered association lists -/

/-- `dict` lookup (first — on a genuine dict, only — binding of the key). -/
def alistGet {κ α : Type} [DecidableEq κ] : List (κ × α) → κ → Option α
  | [], _ => none
  | p :: t, k => if p.1 = k then some p.2 else alistGet t k

/-- `dict` update: overwriting an existing key keeps its position, a new
key is appended (CPython insertion order). -/
def alistSet {κ α : Type} [DecidableEq κ] : List (κ × α) → κ → α → List (κ × α)
  | [], k, v => [(k, v)]
  | p :: t, k, v => if p.1 = k then (k, v) :: t else p :: alistSet t k v

/-- `del d[k]`. -/
def alistDel {κ α : Type} [DecidableEq κ] : List (κ × α) → κ → List (κ × α)
  | [], _ => []
  | p :: t, k => if p.1 = k then alistDel t k else p :: alistDel t k

/-- `dict` lookup with the `defaultdict` default. -/
def alistGetD {κ α : Type} [DecidableEq κ] (l : List (κ × α)) (k : κ) (d : α) : α :=
  (alistGet l k).getD d

/-- Python `set.add`, with the set carried as its insertion-ordered
support list (only membership and cardinality are ever observed). -/
def setAdd (s : List PyStr) (a : PyStr) : List PyStr :=
  if a ∈ s then s else s ++ [a]

theorem alistGet_alistSet_self {κ α : Type} [DecidableEq κ]
    (l : List (κ × α)) (k : κ) (v : α) :
    alistGet (alistSet l k v) k = some v := by
  induction l with
  | nil => simp [alistGet, alistSet]
  | cons p t ih =>
      by_cases hp : p.1 = k
      · simp [alistSet, alistGet, hp]
      · simp [alistSet, alistGet, hp, ih]

theorem alistGet_alistSet_ne {κ α : Type} [DecidableEq κ]
    (l : List (κ × α)) (k k2 : κ) (v : α) (h : k2 ≠ k) :
    alistGet (alistSet l k v) k2 = alistGet l k2 := by
  have hne : k ≠ k2 := Ne.symm h
  induction l with
  | nil => simp [alistGet, alistSet, hne]
  | cons p t ih =>
      by_cases hp : p.1 = k
      · simp [alistSet, alistGet, hp, hne]
      · by_cases hp2 : p.1 = k2
        · simp [alistSet, alistGet, hp, hp2, h]
        · simp [alistSet, alistGet, hp, hp2, ih]

theorem alistSet_of_get_eq {κ α : Type} [DecidableEq κ]
    (l : List (κ × α)) (k : κ) (v : α) (h : alistGet l k = some v) :
    alistSet l k v = l := by
  induction l with
  | nil => simp [alistGet] at h
  | cons p t ih =>
      by_cases hp : p.1 = k
      · rw [alistGet, if_pos hp] at h
        cases h
        cases p
        simp at hp
        simp [alistSet, hp]
      · rw [alistGet, if_neg hp] at h
        simp [alistSet, hp, ih h]

theorem setAdd_of_mem {s : List PyStr} {a : PyStr} (h : a ∈ s) :
    setAdd s a = s := by simp [setAdd, h]

theorem length_le_setAdd (s : List PyStr) (a : PyStr) :
    s.length ≤ (setAdd s a).length := by
  rw [setAdd]
  split <;> simp

/-! ## `conductor/consensus.py` — `ReliableBroadcast` -/

/-- `consensus.Fragment` (the optional `merkle_proof` is never read by
the echo/ready handlers). -/
structure Fragment : Type where
  index : Nat
  data : Bytes
  deriving DecidableEq, Repr

/-- The `ReliableBroadcast` state read and written by `handle_echo`,
`handle_ready` and `_deliver_batch`: `pending_batches` keeps, per batch,
the fields these handlers touch (`batch_data` and the `delivered` flag);
`received_fragments` maps `batch_id` to the insertion-ordered
`fragment_index → Fragment` dict; `ready_messages` maps `batch_id` to
the set of senders; `delivered_batches` is the delivered set. -/
structure RBCState : Type where
  pending : List (PyStr × (Bytes × Bool))
  received : List (PyStr × List (Nat × Fragment))
  ready : List (PyStr × List PyStr)
  delivered : List PyStr
  deriving DecidableEq, Repr

/-- The fragments held for a batch (a missing `received_fragments` key
behaves like an empty dict everywhere these handlers read it, because the
reconstruction threshold `k = n - 2f` is at least 1). -/
def receivedOf (s : RBCState) (batch : PyStr) : List (Nat × Fragment) :=
  alistGetD s.received batch []

/-- The READY senders recorded for a batch. -/
def readyOf (s : RBCState) (batch : PyStr) : List PyStr :=
  alistGetD s.ready batch []

/-- `ReliableBroadcast._reconstruct_batch`: stable-sort the fragments by
their `index` field and concatenate their data.  (CPython `list.sort`
is a stable sort; `List.insertionSort` is the stable sort on the same
`index`-key preorder, and stable sorts of a list under one preorder
agree.) -/
def reconstruct_batch (fragments : List Fragment) : Bytes :=
  ((List.insertionSort (fun a b => a.index ≤ b.index) fragments).map
    (fun f => f.data)).flatten

/-- `ReliableBroadcast._deliver_batch`: no-op when already delivered or
when fewer than `k` fragments are held (which also covers a missing
`received_fragments` key, as `1 ≤ k`); otherwise reconstructs and marks
the batch delivered exactly when the reconstruction equals the stored
original `batch_data`. -/
def deliver_batch (k : Nat) (batch : PyStr) (s : RBCState) : RBCState :=
  if batch ∈ s.delivered then s
  else if (receivedOf s batch).length < k then s
  else
    match alistGet s.pending batch with
    | none => s
    | some (data, _) =>
        if reconstruct_batch ((receivedOf s batch).map (fun p => p.2)) = data then
          { s with
            delivered := s.delivered ++ [batch]
            pending := alistSet s.pending batch (data, true) }
        else s

/-- `self.ready_messages[batch_id].add(sender)` (creating the set if the
key is missing). -/
def addReadySender (sender batch : PyStr) (s : RBCState) : RBCState :=
  { s with ready := alistSet s.ready batch (setAdd (readyOf s batch) sender) }

/-- The tail of `handle_ready` after the sender is recorded: deliver when
`2f+1` READYs are held and the batch is not yet delivered.  (The `f+1`
amplification branch re-sends a READY only when
`sender not in ready_messages[batch_id]`, which is never true right
after `add(sender)`, so it is dead code.) -/
def handleReadyRecorded (k f : Nat) (batch : PyStr) (s1 : RBCState) :
    RBCState :=
  if 2 * f + 1 ≤ (readyOf s1 batch).length ∧ batch ∉ s1.delivered then
    deliver_batch k batch s1
  else s1

/-- `ReliableBroadcast.handle_ready`: ignore unknown batches, record the
sender, then deliver when `2f+1` READYs are held. -/
def handle_ready (k f : Nat) (sender batch : PyStr) (s : RBCState) :
    RBCState :=
  if (alistGet s.pending batch).isNone then s
  else handleReadyRecorded k f batch (addReadySender sender batch s)

/-- `self.received_fragments[batch_id][fragment_index] = fragment`. -/
def storeFragment (batch : PyStr) (fragment : Fragment)
    (fragment_index : Nat) (s : RBCState) : RBCState :=
  { s with
    received :=
      alistSet s.received batch (alistSet (receivedOf s batch) fragment_index fragment) }

/-- The tail of `handle_echo` after the fragment is stored: drop
empty-data fragments (the whole content of `_verify_fragment`), and once
`k` fragments are held send our READY on behalf of `sender` unless
already recorded (`_send_ready` calls `handle_ready` directly, after
which the handler adds `sender` to the READY set again). -/
def handleEchoStored (k f : Nat) (sender batch : PyStr)
    (fragment : Fragment) (s1 : RBCState) : RBCState :=
  if fragment.data.length = 0 then s1
  else if k ≤ (receivedOf s1 batch).length then
    if sender ∈ readyOf s1 batch then s1
    else addReadySender sender batch (handle_ready k f sender batch s1)
  else s1

/-- `ReliableBroadcast.handle_echo`: ignore unknown batches, store the
fragment under `fragment_index` (before any validation), then run the
validation/READY tail. -/
def handle_echo (k f : Nat) (sender batch : PyStr) (fragment : Fragment)
    (fragment_index : Nat) (s : RBCState) : RBCState :=
  if (alistGet s.pending batch).isNone then s
  else handleEchoStored k f sender batch fragment
    (storeFragment batch fragment fragment_index s)

/-- One inbound RBC message: an ECHO carrying a fragment, or a READY. -/
inductive RBCEvent : Type where
  | echo (sender batch : PyStr) (fragment : Fragment) (fragment_index : Nat) : RBCEvent
  | ready (sender batch : PyStr) : RBCEvent
  deriving DecidableEq, Repr

/-- One handler invocation. -/
def rbcStep (k f : Nat) (s : RBCState) : RBCEvent → RBCState
  | .echo sender batch fragment idx => handle_echo k f sender batch fragment idx s
  | .ready sender batch => handle_ready k f sender batch s

theorem deliver_batch_received (k : Nat) (b : PyStr) (s : RBCState) :
    (deliver_batch k b s).received = s.received := by
  rw [deliver_batch]
  split_ifs with h1 h2
  · rfl
  · rfl
  · cases h : alistGet s.pending b with
    | none => rfl
    | some v =>
        cases v with
        | mk data fl =>
            simp only
            split <;> rfl

theorem deliver_batch_ready (k : Nat) (b : PyStr) (s : RBCState) :
    (deliver_batch k b s).ready = s.ready := by
  rw [deliver_batch]
  split_ifs with h1 h2
  · rfl
  · rfl
  · cases h : alistGet s.pending b with
    | none => rfl
    | some v =>
        cases v with
        | mk data fl =>
            simp only
            split <;> rfl

theorem deliver_batch_delivered_mono (k : Nat) (b b2 : PyStr) (s : RBCState)
    (h : b2 ∈ s.delivered) : b2 ∈ (deliver_batch k b s).delivered := by
  rw [deliver_batch]
  split_ifs with h1 h2
  · exact h
  · exact h
  · cases hp : alistGet s.pending b with
    | none => exact h
    | some v =>
        cases v with
        | mk data fl =>
            simp only
            split
            · simp [h]
            · exact h

/-- A batch newly delivered by `_deliver_batch` is the argument batch,
and in the post state it holds at least `k` fragments whose
reconstruction equals the stored original bytes, now flagged delivered. -/
theorem deliver_batch_new_delivered (k : Nat) (b b2 : PyStr) (s : RBCState)
    (hpre : b2 ∉ s.delivered)
    (hpost : b2 ∈ (deliver_batch k b s).delivered) :
    b2 = b ∧ k ≤ (receivedOf (deliver_batch k b s) b).length ∧
    ∃ data, alistGet (deliver_batch k b s).pending b = some (data, true) ∧
      reconstruct_batch ((receivedOf (deliver_batch k b s) b).map
        (fun p => p.2)) = data := by
  rw [deliver_batch] at hpost ⊢
  split_ifs at hpost ⊢ with h1 h2
  · exact absurd hpost hpre
  · exact absurd hpost hpre
  · cases hp : alistGet s.pending b with
    | none => rw [hp] at hpost; exact absurd hpost hpre
    | some v =>
        cases v with
        | mk data fl =>
            rw [hp] at hpost
            simp only at hpost ⊢
            by_cases hrec :
                reconstruct_batch ((receivedOf s b).map (fun p => p.2)) = data
            · rw [if_pos hrec] at hpost ⊢
              simp only [List.mem_append, List.mem_singleton] at hpost
              rcases hpost with hpost | hpost
              · exact absurd hpost hpre
              · subst hpost
                refine ⟨rfl, ?_, data, ?_, ?_⟩
                · simpa [receivedOf, alistGetD] using le_of_not_lt h2
                · exact alistGet_alistSet_self s.pending _ (data, true)
                · simpa [receivedOf, alistGetD] using hrec
            · rw [if_neg hrec] at hpost
              exact absurd hpost hpre

theorem addReadySender_of_mem {sender batch : PyStr} {s : RBCState}
    (h : sender ∈ readyOf s batch) : addReadySender sender batch s = s := by
  cases hget : alistGet s.ready batch with
  | none => simp [readyOf, alistGetD, hget] at h
  | some rs =>
      have hrs : readyOf s batch = rs := by simp [readyOf, alistGetD, hget]
      have : alistSet s.ready batch (setAdd (readyOf s batch) sender) = s.ready := by
        rw [hrs, setAdd_of_mem (hrs ▸ h)]
        exact alistSet_of_get_eq s.ready batch rs hget
      simp [addReadySender, this]

theorem handleReadyRecorded_received (k f : Nat) (batch : PyStr)
    (s1 : RBCState) :
    (handleReadyRecorded k f batch s1).received = s1.received := by
  rw [handleReadyRecorded]
  split
  · exact deliver_batch_received k batch s1
  · rfl

theorem handleReadyRecorded_ready (k f : Nat) (batch : PyStr)
    (s1 : RBCState) :
    (handleReadyRecorded k f batch s1).ready = s1.ready := by
  rw [handleReadyRecorded]
  split
  · exact deliver_batch_ready k batch s1
  · rfl

theorem handleReadyRecorded_mono (k f : Nat) (batch b : PyStr)
    (s1 : RBCState) (h : b ∈ s1.delivered) :
    b ∈ (handleReadyRecorded k f batch s1).delivered := by
  rw [handleReadyRecorded]
  split
  · exact deliver_batch_delivered_mono k batch b s1 h
  · exact h

/-- A batch newly delivered by the post-record tail of `handle_ready` is
the handled batch, and the post state meets the delivery conditions. -/
theorem handleReadyRecorded_new (k f : Nat) (batch b : PyStr)
    (s1 : RBCState) (hb : b ∉ s1.delivered)
    (hb2 : b ∈ (handleReadyRecorded k f batch s1).delivered) :
    b = batch ∧
    2 * f + 1 ≤ (readyOf (handleReadyRecorded k f batch s1) batch).length ∧
    k ≤ (receivedOf (handleReadyRecorded k f batch s1) batch).length ∧
    ∃ data,
      alistGet (handleReadyRecorded k f batch s1).pending batch = some (data, true) ∧
      reconstruct_batch ((receivedOf (handleReadyRecorded k f batch s1) batch).map
        (fun p => p.2)) = data := by
  rw [handleReadyRecorded] at hb2 ⊢
  split_ifs at hb2 ⊢ with hc
  · obtain ⟨hbb, hlen, data, hpend, hrec⟩ :=
      deliver_batch_new_delivered k batch b s1 hb hb2
    refine ⟨hbb, ?_, hlen, data, hpend, hrec⟩
    have hr : readyOf (deliver_batch k batch s1) batch = readyOf s1 batch := by
      simp [readyOf, alistGetD, deliver_batch_ready]
    rw [hr]
    exact hc.1
  · exact absurd hb2 hb

/-- Spec of `handle_ready`: `received` never changes; delivery is
monotone; a newly delivered batch is the handled batch and satisfies the
delivery conditions in the post state; and a READY from an
already-recorded sender leaves `ready_messages` unchanged. -/
theorem handle_ready_spec (k f : Nat) (sender batch : PyStr) (s : RBCState) :
    (handle_ready k f sender batch s).received = s.received ∧
    (∀ b, b ∈ s.delivered → b ∈ (handle_ready k f sender batch s).delivered) ∧
    (∀ b, b ∉ s.delivered → b ∈ (handle_ready k f sender batch s).delivered →
      b = batch ∧
      2 * f + 1 ≤ (readyOf (handle_ready k f sender batch s) batch).length ∧
      k ≤ (receivedOf (handle_ready k f sender batch s) batch).length ∧
      ∃ data,
        alistGet (handle_ready k f sender batch s).pending batch = some (data, true) ∧
        reconstruct_batch ((receivedOf (handle_ready k f sender batch s) batch).map
          (fun p => p.2)) = data) ∧
    (sender ∈ readyOf s batch →
      (handle_ready k f sender batch s).ready = s.ready) := by
  rw [handle_ready]
  split
  · exact ⟨rfl, fun b h => h, fun b hb hb2 => absurd hb2 hb, fun _ => rfl⟩
  · refine ⟨?_, ?_, ?_, ?_⟩
    · rw [handleReadyRecorded_received]
      rfl
    · intro b hb
      exact handleReadyRecorded_mono k f batch b _ hb
    · intro b hb hb2
      exact handleReadyRecorded_new k f batch b _ hb hb2
    · intro hmem
      rw [addReadySender_of_mem hmem, handleReadyRecorded_ready]

theorem readyOf_addReadySender (sender batch : PyStr) (s : RBCState) :
    readyOf (addReadySender sender batch s) batch =
      setAdd (readyOf s batch) sender := by
  simp [addReadySender, readyOf, alistGetD, alistGet_alistSet_self]

theorem readyOf_congr {s s2 : RBCState} (h : s2.ready = s.ready)
    (b : PyStr) : readyOf s2 b = readyOf s b := by
  simp [readyOf, alistGetD, h]

theorem receivedOf_congr {s s2 : RBCState} (h : s2.received = s.received)
    (b : PyStr) : receivedOf s2 b = receivedOf s b := by
  simp [receivedOf, alistGetD, h]

theorem handleEchoStored_received (k f : Nat) (sender batch : PyStr)
    (fragment : Fragment) (s1 : RBCState) :
    (handleEchoStored k f sender batch fragment s1).received = s1.received := by
  rw [handleEchoStored]
  split_ifs with h1 h2 h3
  · rfl
  · rfl
  · show (handle_ready k f sender batch s1).received = s1.received
    exact (handle_ready_spec k f sender batch s1).1
  · rfl

theorem handleEchoStored_mono (k f : Nat) (sender batch b : PyStr)
    (fragment : Fragment) (s1 : RBCState) (h : b ∈ s1.delivered) :
    b ∈ (handleEchoStored k f sender batch fragment s1).delivered := by
  rw [handleEchoStored]
  split_ifs with h1 h2 h3
  · exact h
  · exact h
  · show b ∈ (handle_ready k f sender batch s1).delivered
    exact (handle_ready_spec k f sender batch s1).2.1 b h
  · exact h

/-- A batch newly delivered by the post-store tail of `handle_echo` is
the echoed batch, and the post state meets the delivery conditions. -/
theorem handleEchoStored_new (k f : Nat) (sender batch b : PyStr)
    (fragment : Fragment) (s1 : RBCState) (hb : b ∉ s1.delivered)
    (hb2 : b ∈ (handleEchoStored k f sender batch fragment s1).delivered) :
    b = batch ∧
    2 * f + 1 ≤
      (readyOf (handleEchoStored k f sender batch fragment s1) batch).length ∧
    k ≤ (receivedOf (handleEchoStored k f sender batch fragment s1) batch).length ∧
    ∃ data,
      alistGet (handleEchoStored k f sender batch fragment s1).pending batch =
        some (data, true) ∧
      reconstruct_batch
        ((receivedOf (handleEchoStored k f sender batch fragment s1) batch).map
          (fun p => p.2)) = data := by
  rw [handleEchoStored] at hb2 ⊢
  split_ifs at hb2 ⊢ with h1 h2 h3
  · exact absurd hb2 hb
  · exact absurd hb2 hb
  · have hb2r : b ∈ (handle_ready k f sender batch s1).delivered := hb2
    obtain ⟨hbb, hready, hlen, data, hpend, hrec⟩ :=
      (handle_ready_spec k f sender batch s1).2.2.1 b hb hb2r
    have hready2 :
        readyOf (addReadySender sender batch (handle_ready k f sender batch s1)) batch =
          setAdd (readyOf (handle_ready k f sender batch s1) batch) sender :=
      readyOf_addReadySender sender batch _
    have hrecv2 :
        receivedOf (addReadySender sender batch (handle_ready k f sender batch s1)) batch =
          receivedOf (handle_ready k f sender batch s1) batch :=
      receivedOf_congr rfl batch
    refine ⟨hbb, ?_, ?_, data, hpend, ?_⟩
    · rw [hready2]
      exact le_trans hready (length_le_setAdd _ _)
    · rw [hrecv2]
      exact hlen
    · rw [hrecv2]
      exact hrec
  · exact absurd hb2 hb

/-- C5 counterexample state: one pending batch `"B"` with original bytes
`[10, 11]` and nothing yet received. -/
def c5InitialState : RBCState :=
  { pending := [([66], ([10, 11], false))], received := [], ready := [],
    delivered := [] }

/-- C5 counterexample trace (`n = 4`, `f = 1`, `k = 2`): sender `"A"`
echoes fragment 0, then `"A"`, `"P"`, `"Q"` send READY (delivery fails
for lack of fragments), then `"A"` echoes fragment 1 (no new READY since
`"A"` is already recorded). -/
def c5Trace : List RBCEvent :=
  [RBCEvent.echo [65] [66] ⟨0, [10]⟩ 0,
   RBCEvent.ready [65] [66],
   RBCEvent.ready [80] [66],
   RBCEvent.ready [81] [66],
   RBCEvent.echo [65] [66] ⟨1, [11]⟩ 1]

/-- The state reached by the C5 counterexample trace. -/
def c5ReachedState : RBCState := c5Trace.foldl (rbcStep 2 1) c5InitialState

/-- C5 counterexample: a duplicate READY from the same peer does NOT
leave the state unchanged.  After the trace above, `"A"` is already in
the READY set of batch `"B"` and the batch is undelivered; replaying the
same `handle_ready("A", "B")` call delivers the batch, because the
delivery conditions became true only after the third READY had already
been processed.  This falsifies the claim's idempotence conjunct. -/
theorem c5_duplicate_ready_not_idempotent :
    [65] ∈ readyOf c5ReachedState [66] ∧
    [66] ∉ c5ReachedState.delivered ∧
    [66] ∈ (rbcStep 2 1 c5ReachedState (RBCEvent.ready [65] [66])).delivered ∧
    rbcStep 2 1 c5ReachedState (RBCEvent.ready [65] [66]) ≠ c5ReachedState := by
  refine ⟨by decide, by decide, by decide, by decide⟩

/-- C5 (amended): for every `handle_echo`/`handle_ready` step,
(1) delivery is monotone (a delivered batch stays delivered);
(2) a batch can only transition into `delivered` when, in the post
state, at least `2f+1` READY senders are recorded, at least `k`
fragments are held, and the reconstruction of the held fragments equals
the stored original batch bytes (the code compares against the stored
`batch_data`, not against a hash of `batch_id`);
(3) a duplicate READY from an already-recorded sender leaves the READY
set unchanged (though, as the counterexample shows, it may trigger
delivery when the delivery conditions have become true in the meantime);
(4) a duplicate fragment identical to the one already stored at its
index leaves the fragment store unchanged.
The hypothesis `1 ≤ k` holds for every constructed instance
(`k = n - 2f` is validated positive) and makes a missing
`received_fragments` key behave exactly like an empty fragment dict. -/
theorem c5_rbc_delivery_amended (k f : Nat) (s : RBCState) (e : RBCEvent)
    (hk : 1 ≤ k) :
    (∀ b, b ∈ s.delivered → b ∈ (rbcStep k f s e).delivered) ∧
    (∀ b, b ∉ s.delivered → b ∈ (rbcStep k f s e).delivered →
      2 * f + 1 ≤ (readyOf (rbcStep k f s e) b).length ∧
      k ≤ (receivedOf (rbcStep k f s e) b).length ∧
      ∃ data, alistGet (rbcStep k f s e).pending b = some (data, true) ∧
        reconstruct_batch ((receivedOf (rbcStep k f s e) b).map
          (fun p => p.2)) = data) ∧
    (∀ sender batch, e = RBCEvent.ready sender batch →
      sender ∈ readyOf s batch →
      readyOf (rbcStep k f s e) batch = readyOf s batch) ∧
    (∀ sender batch fragment idx,
      e = RBCEvent.echo sender batch fragment idx →
      alistGet (receivedOf s batch) idx = some fragment →
      receivedOf (rbcStep k f s e) batch = receivedOf s batch) := by
  cases e with
  | ready sender batch =>
      refine ⟨?_, ?_, ?_, ?_⟩
      · intro b hb
        exact (handle_ready_spec k f sender batch s).2.1 b hb
      · intro b hb hb2
        obtain ⟨hbb, hready, hlen, data, hpend, hrec⟩ :=
          (handle_ready_spec k f sender batch s).2.2.1 b hb hb2
        subst hbb
        exact ⟨hready, hlen, data, hpend, hrec⟩
      · intro sender2 batch2 heq hmem
        cases heq
        exact readyOf_congr ((handle_ready_spec k f sender batch s).2.2.2 hmem) _
      · intro sender2 batch2 fragment idx2 heq
        cases heq
  | echo sender batch fragment idx =>
      by_cases hnone : (alistGet s.pending batch).isNone
      · have hstep : rbcStep k f s (RBCEvent.echo sender batch fragment idx) = s := by
          simp [rbcStep, handle_echo, hnone]
        rw [hstep]
        refine ⟨fun b h => h, fun b hb hb2 => absurd hb2 hb, ?_, ?_⟩
        · intro sender2 batch2 heq
          cases heq
        · intro sender2 batch2 fragment2 idx2 heq hdup
          rfl
      · have hstep : rbcStep k f s (RBCEvent.echo sender batch fragment idx) =
            handleEchoStored k f sender batch fragment
              (storeFragment batch fragment idx s) := by
          simp [rbcStep, handle_echo, hnone]
        rw [hstep]
        have hs1recv :
            receivedOf (storeFragment batch fragment idx s) batch =
              alistSet (receivedOf s batch) idx fragment := by
          simp [storeFragment, receivedOf, alistGetD, alistGet_alistSet_self]
        have hs1del : (storeFragment batch fragment idx s).delivered = s.delivered := rfl
        refine ⟨?_, ?_, ?_, ?_⟩
        · intro b hb
          exact handleEchoStored_mono k f sender batch b fragment _ (hs1del ▸ hb)
        · intro b hb hb2
          obtain ⟨hbb, hready, hlen, data, hpend, hrec⟩ :=
            handleEchoStored_new k f sender batch b fragment _ (hs1del ▸ hb) hb2
          subst hbb
          exact ⟨hready, hlen, data, hpend, hrec⟩
        · intro sender2 batch2 heq
          cases heq
        · intro sender2 batch2 fragment2 idx2 heq hdup
          cases heq
          have hset : alistSet (receivedOf s batch) idx fragment =
              receivedOf s batch :=
            alistSet_of_get_eq (receivedOf s batch) idx fragment hdup
          rw [receivedOf_congr
            (handleEchoStored_received k f sender batch fragment _) batch,
            hs1recv, hset]

/-- Witness for C5 (amended) at a concrete instance: replaying the
duplicate READY of the counterexample trace leaves the READY set of the
batch unchanged, by conjunct (3) of the amended theorem. -/
theorem c5_rbc_delivery_amended_witness :
    readyOf (rbcStep 2 1 c5ReachedState (RBCEvent.ready [65] [66])) [66] =
      readyOf c5ReachedState [66] :=
  (c5_rbc_delivery_amended 2 1 c5ReachedState (RBCEvent.ready [65] [66])
    (by decide)).2.2.1 [65] [66] rfl (by decide)

/-! ## `conductor/node.py` — `ConsensusModule` -/

/-- `models.RBCPropose` (the fields `handle_commit` reads and stores;
`enc_chunks` carries the share payload strings). -/
structure RBCProposeMsg : Type where
  epoch : Nat
  proposer_id : PyStr
  payload_hash : PyStr
  enc_chunks : List PyStr
  k : Nat
  n : Nat
  deriving DecidableEq, Repr

/-- `models.Commit`. -/
structure CommitMsg : Type where
  epoch : Nat
  block_digest : PyStr
  quorum_cert : PyStr
  deriving DecidableEq, Repr

/-- The dictionary `handle_commit` stores into `committed_blocks`. -/
structure Block : Type where
  block_digest : PyStr
  proposals : List RBCProposeMsg
  common_coin : Option PyStr
  deriving DecidableEq, Repr

/-- `models.BlacklistVote`. -/
structure BlacklistVoteMsg : Type where
  epoch : Nat
  voter_id : PyStr
  target_validator_id : PyStr
  reason : PyStr
  deriving DecidableEq, Repr

/-- The `ConsensusModule` state read and written by `handle_commit`,
`advance_epoch` and `handle_blacklist_vote`.  The `logger` field records
whether the instance attribute `logger` is set: `ConsensusModule.__init__`
(node.py:239-262) never assigns `self.logger` — it logs through the
module-level `logger` — and nothing else in the repository or its tests
assigns the attribute on a `ConsensusModule` instance, so every state of
the real module has `logger = false` and the methods below raise
`AttributeError` at their first statement `self.logger.info(…)`. -/
structure ConsensusState : Type where
  current_epoch : Nat
  validators : List PyStr
  proposals : List (Nat × List (PyStr × RBCProposeMsg))
  received_enc_chunks : List (Nat × List (PyStr × List (Nat × PyStr)))
  common_coin_value : List (Nat × Option PyStr)
  committed_blocks : List (Nat × Block)
  blacklisted_validators : List PyStr
  blacklist_votes : List (PyStr × List PyStr)
  logger : Bool
  deriving DecidableEq, Repr

/-- The state `ConsensusModule.__init__` constructs: epoch 0, the given
validator list, empty dictionaries — and no `logger` attribute. -/
def consensus_init (validators : List PyStr) : ConsensusState :=
  { current_epoch := 0
    validators := validators
    proposals := []
    received_enc_chunks := []
    common_coin_value := []
    committed_blocks := []
    blacklisted_validators := []
    blacklist_votes := []
    logger := false }

/-- `self.common_coin_value[epoch]` (a `defaultdict` with default
`None`). -/
def coinOf (s : ConsensusState) (epoch : Nat) : Option PyStr :=
  alistGetD s.common_coin_value epoch none

/-- Python truthiness of an `Optional[str]`: `None` and `""` are falsy
(the derived coin values are 64-character hex digests, never empty). -/
def optStrTruthy : Option PyStr → Bool
  | none => false
  | some c => !c.isEmpty

/-- `ConsensusModule._is_rbc_complete`: the proposer has a stored propose
for the epoch and at least `n` distinct encrypted chunks are held. -/
def is_rbc_complete (s : ConsensusState) (epoch : Nat) (proposer : PyStr) :
    Bool :=
  match alistGet (alistGetD s.proposals epoch []) proposer with
  | none => false
  | some msg =>
      msg.n ≤ (alistGetD (alistGetD s.received_enc_chunks epoch []) proposer []).length

/-- `blake3_hash` on `str` input (UTF-8 encode, hash, hex digest; all
strings involved are ASCII, so encoding is the identity on code
points). -/
def blake3HashStr (H : Bytes → Bytes) (s : PyStr) : PyStr :=
  bytesHex (H s)

/-- `json.dumps(l, sort_keys=True)` for a list of strings containing no
characters that JSON escapes (the arguments are hex-digest strings). -/
def jsonDumpStrList (l : List PyStr) : PyStr :=
  [91] ++ (List.intercalate [44, 32] (l.map (fun s => [34] ++ s ++ [34]))) ++ [93]

/-- The sort key relation of the common-coin branch of `handle_commit`:
compare `blake3_hash(f"{coin}{proposer_id}")` hex strings
lexicographically (CPython string comparison is lexicographic on code
points, and `sorted` is a stable sort, so it agrees with
`insertionSort` on this preorder). -/
def coinSortLe (H : Bytes → Bytes) (coin : PyStr) (p q : RBCProposeMsg) :
    Prop :=
  blake3HashStr H (coin ++ p.proposer_id) ≤ blake3HashStr H (coin ++ q.proposer_id)

instance (H : Bytes → Bytes) (coin : PyStr) :
    DecidableRel (coinSortLe H coin) := fun p q =>
  inferInstanceAs (Decidable (_ ≤ _))

/-- The fallback sort key relation of `handle_commit`: the Python tuple
order on `(proposer_id, payload_hash)`. -/
def fallbackLe (p q : RBCProposeMsg) : Prop :=
  p.proposer_id < q.proposer_id ∨
    (p.proposer_id = q.proposer_id ∧ p.payload_hash ≤ q.payload_hash)

instance : DecidableRel fallbackLe := fun p q =>
  inferInstanceAs (Decidable (_ ∨ _))

/-- The deterministic ordering step of `handle_commit`: with a derived
coin, keep only proposals from current validators and sort by the hashed
coin-and-proposer key; otherwise sort all valid proposals by
`(proposer_id, payload_hash)`. -/
def orderedProposals (H : Bytes → Bytes) (validators : List PyStr)
    (coin : Option PyStr) (valid : List RBCProposeMsg) :
    List RBCProposeMsg :=
  if optStrTruthy coin then
    List.insertionSort (coinSortLe H (coin.getD []))
      (valid.filter (fun p => decide (p.proposer_id ∈ validators)))
  else
    List.insertionSort fallbackLe valid

/-- `block_content_hash = blake3_hash([p.payload_hash for p in ordered])`:
the hash of the JSON rendering of the ordered payload hashes. -/
def blockDigest (H : Bytes → Bytes) (ordered : List RBCProposeMsg) : PyStr :=
  blake3HashStr H (jsonDumpStrList (ordered.map (fun p => p.payload_hash)))

/-- The proposals of an epoch that completed RBC, in stored order. -/
def validProposalsOf (s : ConsensusState) (epoch : Nat)
    (P : List (PyStr × RBCProposeMsg)) : List RBCProposeMsg :=
  (P.filter (fun pr => is_rbc_complete s epoch pr.1)).map (fun pr => pr.2)

/-- The block `handle_commit` stores for an epoch with proposal dict `P`. -/
def commitBlockFor (H : Bytes → Bytes) (s : ConsensusState) (epoch : Nat)
    (P : List (PyStr × RBCProposeMsg)) : Block :=
  { block_digest :=
      blockDigest H (orderedProposals H s.validators (coinOf s epoch)
        (validProposalsOf s epoch P))
    proposals :=
      orderedProposals H s.validators (coinOf s epoch)
        (validProposalsOf s epoch P)
    common_coin := coinOf s epoch }

/-- The statements of `ConsensusModule.handle_commit` past the initial
`self.logger` attribute lookup, followed by the unconditional
`advance_epoch` (all remaining `self.logger` uses are no-op info, debug
and warning log statements): when the epoch has a proposals entry, filter
the RBC-complete proposals, order them, store the block — with no
comparison whatsoever against `message.block_digest` or
`message.quorum_cert` — and in every case advance `current_epoch`. -/
def handle_commit_body (H : Bytes → Bytes) (s : ConsensusState)
    (message : CommitMsg) : ConsensusState :=
  match alistGet s.proposals message.epoch with
  | none => { s with current_epoch := s.current_epoch + 1 }
  | some P =>
      { s with
        committed_blocks :=
          alistSet s.committed_blocks message.epoch
            (commitBlockFor H s message.epoch P)
        current_epoch := s.current_epoch + 1 }

/-- `ConsensusModule.handle_commit` (with the `advance_epoch` it
triggers): its first statement is `self.logger.info(…)` (node.py:375),
so when the `logger` attribute is unset — as `ConsensusModule.__init__`
leaves it — the call raises `AttributeError` before reading the message
or touching any state; otherwise the body runs. -/
def handle_commit (H : Bytes → Bytes) (s : ConsensusState)
    (message : CommitMsg) : Except PyErr ConsensusState :=
  if s.logger then .ok (handle_commit_body H s message)
  else .error .attributeError

/-- A concrete pre-state for the C2 failing input: epoch 5 holds one
RBC-complete proposal (payload hash `"aa"`, `n = 1`, one chunk held),
no coin derived, and — as `__init__` leaves it — no `logger`
attribute. -/
def c2State : ConsensusState :=
  { current_epoch := 5
    validators := [[112]]
    proposals := [(5, [([112], ⟨5, [112], [97, 97], [[99]], 1, 1⟩)])]
    received_enc_chunks := [(5, [([112], [(0, [99])])])]
    common_coin_value := []
    committed_blocks := []
    blacklisted_validators := []
    blacklist_votes := []
    logger := false }

/-- The commit message of the C2 failing input: its `block_digest`
`"ff"` differs from every digest the engine could reconstruct. -/
def c2Commit : CommitMsg := { epoch := 5, block_digest := [102, 102], quorum_cert := [] }

/-- C2: a commit whose `block_digest` disagrees with the locally
reconstructed digest is never rejected by the digest comparison the
claim describes, because `handle_commit` (1) raises `AttributeError` at
its first statement `self.logger.info(…)` on EVERY call when the
`logger` attribute is unset, as `ConsensusModule.__init__` leaves it —
in particular on the mismatching commit `c2Commit` no consensus error is
surfaced, just the crash; (2) behaves identically on any two commit
messages for the same epoch whatever their `block_digest` and
`quorum_cert` — those fields are never read; and (3) even on a module
whose `logger` attribute has been supplied externally, processing the
mismatching commit stores a block for epoch 5 with the locally computed
digest `"00"` (≠ the message's `"ff"`) and advances the epoch from 5 to
6 with no error of any kind. -/
theorem c2_commit_digest_mismatch_not_rejected :
    (∀ (H : Bytes → Bytes) (s : ConsensusState) (m : CommitMsg),
      handle_commit H { s with logger := false } m = .error .attributeError) ∧
    (∀ (m : CommitMsg), handle_commit (fun _ => [0]) c2State m = .error .attributeError) ∧
    (∀ (H : Bytes → Bytes) (s : ConsensusState) (e : Nat) (d₁ d₂ q₁ q₂ : PyStr),
      handle_commit H s ⟨e, d₁, q₁⟩ = handle_commit H s ⟨e, d₂, q₂⟩) ∧
    handle_commit (fun _ => [0]) { c2State with logger := true } c2Commit =
      .ok (handle_commit_body (fun _ => [0]) { c2State with logger := true } c2Commit) ∧
    alistGet (handle_commit_body (fun _ => [0])
        { c2State with logger := true } c2Commit).committed_blocks 5 =
      some { block_digest := [48, 48],
             proposals := [⟨5, [112], [97, 97], [[99]], 1, 1⟩],
             common_coin := none } ∧
    ([48, 48] : PyStr) ≠ c2Commit.block_digest ∧
    (handle_commit_body (fun _ => [0])
      { c2State with logger := true } c2Commit).current_epoch = 6 := by
  exact ⟨fun H s m => rfl, fun m => rfl, fun H s e d₁ d₂ q₁ q₂ => rfl,
    by rfl, by rfl, by decide, by rfl⟩

instance (H : Bytes → Bytes) (coin : PyStr) :
    IsTotal RBCProposeMsg (coinSortLe H coin) :=
  ⟨fun _ _ => le_total _ _⟩

instance (H : Bytes → Bytes) (coin : PyStr) :
    IsTrans RBCProposeMsg (coinSortLe H coin) :=
  ⟨fun _ _ _ h1 h2 => le_trans h1 h2⟩

instance : IsTotal RBCProposeMsg fallbackLe := by
  constructor
  intro p q
  rcases lt_trichotomy p.proposer_id q.proposer_id with h | h | h
  · exact Or.inl (Or.inl h)
  · rcases le_total p.payload_hash q.payload_hash with h2 | h2
    · exact Or.inl (Or.inr ⟨h, h2⟩)
    · exact Or.inr (Or.inr ⟨h.symm, h2⟩)
  · exact Or.inr (Or.inl h)

instance : IsTrans RBCProposeMsg fallbackLe := by
  constructor
  intro p q r h1 h2
  rcases h1 with h1 | ⟨h1e, h1p⟩
  · rcases h2 with h2 | ⟨h2e, h2p⟩
    · exact Or.inl (lt_trans h1 h2)
    · exact Or.inl (h2e ▸ h1)
  · rcases h2 with h2 | ⟨h2e, h2p⟩
    · exact Or.inl (h1e ▸ h2)
    · exact Or.inr ⟨h1e.trans h2e, le_trans h1p h2p⟩

/-- Two sorted lists that are permutations of each other and whose
elements admit no nontrivial ties are equal (sort results are unique
once the sort keys are distinct). -/
theorem sorted_unique_of_perm {α : Type} (r : α → α → Prop) :
    ∀ {l₁ l₂ : List α}, l₁.Perm l₂ → l₁.Sorted r → l₂.Sorted r →
      (∀ a ∈ l₁, ∀ b ∈ l₁, r a b → r b a → a = b) → l₁ = l₂ := by
  intro l₁
  induction l₁ with
  | nil =>
      intro l₂ hperm _ _ _
      exact (hperm.nil_eq).symm ▸ rfl
  | cons a t ih =>
      intro l₂ hperm h₁ h₂ hanti
      cases l₂ with
      | nil => exact absurd hperm.symm.nil_eq (by simp)
      | cons c t₂ =>
          have hac : a = c := by
            by_contra hne
            have hmem : a ∈ c :: t₂ := hperm.mem_iff.mp (by simp)
            have hat2 : a ∈ t₂ := by
              rcases List.mem_cons.mp hmem with h | h
              · exact absurd h hne
              · exact h
            have hcl1 : c ∈ a :: t := hperm.mem_iff.mpr (by simp)
            have hct : c ∈ t := by
              rcases List.mem_cons.mp hcl1 with h | h
              · exact absurd h.symm hne
              · exact h
            have hrca : r c a := (List.sorted_cons.mp h₂).1 a hat2
            have hrac : r a c := (List.sorted_cons.mp h₁).1 c hct
            exact hne (hanti a (by simp) c (by simp [hct]) hrac hrca)
          subst hac
          have htail : t.Perm t₂ := hperm.cons_inv
          have := ih htail (List.sorted_cons.mp h₁).2 (List.sorted_cons.mp h₂).2
            (fun x hx y hy => hanti x (by simp [hx]) y (by simp [hy]))
          rw [this]

/-- The pre-state of the C7 failing input: for epoch 7 the common coin
is derived (`"c"`), the single stored proposal is from proposer `"x"`,
who completed RBC (`n = 0`) but is not in the current validator set
(`["a"]`), and — as `__init__` leaves it — the `logger` attribute is
unset. -/
def c7State : ConsensusState :=
  { current_epoch := 7
    validators := [[97]]
    proposals := [(7, [([120], ⟨7, [120], [98, 98], [], 0, 0⟩)])]
    received_enc_chunks := []
    common_coin_value := [(7, some [99])]
    committed_blocks := []
    blacklisted_validators := []
    blacklist_votes := []
    logger := false }

/-- Injectivity of the sort keys `handle_commit` uses, on a given list
of proposals: hash keys in the coin branch, `(proposer_id, payload_hash)`
pairs in the fallback branch. -/
def sortKeyInjectiveOn (H : Bytes → Bytes) (coin : Option PyStr)
    (V : List RBCProposeMsg) : Prop :=
  ∀ p ∈ V, ∀ q ∈ V,
    (if optStrTruthy coin then
      blake3HashStr H (coin.getD [] ++ p.proposer_id) =
        blake3HashStr H (coin.getD [] ++ q.proposer_id)
     else p.proposer_id = q.proposer_id ∧ p.payload_hash = q.payload_hash) →
    p = q

/-- `orderedProposals` depends only on the multiset of valid proposals
once the sort keys are injective: any permutation of the input produces
the identical ordered list (hence the identical block digest). -/
theorem orderedProposals_perm_eq (H : Bytes → Bytes)
    (validators : List PyStr) (coin : Option PyStr)
    {v₁ v₂ : List RBCProposeMsg} (hperm : v₁.Perm v₂)
    (hinj : sortKeyInjectiveOn H coin v₁) :
    orderedProposals H validators coin v₁ =
      orderedProposals H validators coin v₂ := by
  rw [orderedProposals, orderedProposals]
  by_cases hcoin : optStrTruthy coin
  · rw [if_pos hcoin, if_pos hcoin]
    have hpf : (v₁.filter (fun p => decide (p.proposer_id ∈ validators))).Perm
        (v₂.filter (fun p => decide (p.proposer_id ∈ validators))) :=
      hperm.filter _
    refine sorted_unique_of_perm (coinSortLe H (coin.getD [])) ?_ ?_ ?_ ?_
    · exact ((List.perm_insertionSort _ _).trans hpf).trans
        (List.perm_insertionSort _ _).symm
    · exact List.sorted_insertionSort _ _
    · exact List.sorted_insertionSort _ _
    · intro a ha b hb hab hba
      have ha2 : a ∈ v₁ := List.mem_of_mem_filter
        ((List.perm_insertionSort _ _).mem_iff.mp ha)
      have hb2 : b ∈ v₁ := List.mem_of_mem_filter
        ((List.perm_insertionSort _ _).mem_iff.mp hb)
      have hkey := le_antisymm hab hba
      have := hinj a ha2 b hb2
      rw [if_pos hcoin] at this
      exact this hkey
  · rw [if_neg hcoin, if_neg hcoin]
    refine sorted_unique_of_perm fallbackLe ?_ ?_ ?_ ?_
    · exact ((List.perm_insertionSort _ _).trans hperm).trans
        (List.perm_insertionSort _ _).symm
    · exact List.sorted_insertionSort _ _
    · exact List.sorted_insertionSort _ _
    · intro a ha b hb hab hba
      have ha2 : a ∈ v₁ := (List.perm_insertionSort _ _).mem_iff.mp ha
      have hb2 : b ∈ v₁ := (List.perm_insertionSort _ _).mem_iff.mp hb
      have hpq : a.proposer_id = b.proposer_id ∧ a.payload_hash = b.payload_hash := by
        rcases hab with h1 | ⟨h1e, h1p⟩
        · rcases hba with h2 | ⟨h2e, h2p⟩
          · exact absurd h2 (asymm h1)
          · exact absurd h1 (h2e ▸ lt_irrefl _)
        · rcases hba with h2 | ⟨h2e, h2p⟩
          · exact absurd h2 (h1e ▸ lt_irrefl _)
          · exact ⟨h1e, le_antisymm h1p h2p⟩
      have := hinj a ha2 b hb2
      rw [if_neg hcoin] at this
      exact this hpq

/-- C7: the real `handle_commit` never commits any block — with the
`logger` attribute unset, as `ConsensusModule.__init__` leaves it, every
call raises `AttributeError` at the first statement (node.py:375) and
returns no state — so the claimed block content, ordering and digest
behavior never occurs.  Moreover, even on a module whose `logger`
attribute has been supplied externally, the committed block is NOT
exactly the RBC-complete proposals: when the common coin is derived the
coin branch additionally restricts to proposers in the current validator
set (no such restriction on the fallback path).  In detail, for an epoch
with stored proposals `P`, the block the body stores consists of the
RBC-complete proposals so restricted, sorted by the hashed
coin-and-proposer key when the coin is derived and by
`(proposer_id, payload_hash)` otherwise; its digest is the hash of the
JSON list of the ordered payload hashes; and, when the sort keys are
injective, any permutation of the valid proposals (e.g. a different dict
insertion order on another node) yields the identical ordered list,
hence the identical block digest. -/
theorem c7_commit_block_content_and_crash (H : Bytes → Bytes)
    (s : ConsensusState) (message : CommitMsg)
    (P : List (PyStr × RBCProposeMsg))
    (hP : alistGet s.proposals message.epoch = some P) :
    (∀ s2, handle_commit H { s with logger := false } message ≠ .ok s2) ∧
    (s.logger = true →
      handle_commit H s message = .ok (handle_commit_body H s message)) ∧
    alistGet (handle_commit_body H s message).committed_blocks message.epoch =
      some (commitBlockFor H s message.epoch P) ∧
    (∀ p, p ∈ (commitBlockFor H s message.epoch P).proposals ↔
      (p ∈ validProposalsOf s message.epoch P ∧
        (optStrTruthy (coinOf s message.epoch) = true →
          p.proposer_id ∈ s.validators))) ∧
    (optStrTruthy (coinOf s message.epoch) = true →
      (commitBlockFor H s message.epoch P).proposals.Sorted
        (coinSortLe H ((coinOf s message.epoch).getD []))) ∧
    (optStrTruthy (coinOf s message.epoch) = false →
      (commitBlockFor H s message.epoch P).proposals.Sorted fallbackLe) ∧
    (commitBlockFor H s message.epoch P).block_digest =
      blake3HashStr H (jsonDumpStrList
        ((commitBlockFor H s message.epoch P).proposals.map
          (fun p => p.payload_hash))) ∧
    (∀ v₂, (validProposalsOf s message.epoch P).Perm v₂ →
      sortKeyInjectiveOn H (coinOf s message.epoch)
        (validProposalsOf s message.epoch P) →
      orderedProposals H s.validators (coinOf s message.epoch) v₂ =
        (commitBlockFor H s message.epoch P).proposals) := by
  refine ⟨fun s2 h => Except.noConfusion h, fun hl => ?_, ?_, ?_, ?_, ?_, rfl, ?_⟩
  · rw [handle_commit, if_pos hl]
  · rw [handle_commit_body, hP]
    exact alistGet_alistSet_self _ _ _
  · intro p
    rw [commitBlockFor]
    simp only
    rw [orderedProposals]
    by_cases hcoin : optStrTruthy (coinOf s message.epoch)
    · rw [if_pos hcoin]
      constructor
      · intro hmem
        have := (List.perm_insertionSort
          (coinSortLe H ((coinOf s message.epoch).getD [])) _).mem_iff.mp hmem
        have h2 := List.mem_filter.mp this
        exact ⟨h2.1, fun _ => of_decide_eq_true h2.2⟩
      · intro ⟨hv, hval⟩
        refine (List.perm_insertionSort _ _).mem_iff.mpr ?_
        exact List.mem_filter.mpr ⟨hv, decide_eq_true (hval hcoin)⟩
    · rw [if_neg hcoin]
      constructor
      · intro hmem
        refine ⟨(List.perm_insertionSort _ _).mem_iff.mp hmem, ?_⟩
        intro hc
        exact absurd hc hcoin
      · intro ⟨hv, _⟩
        exact (List.perm_insertionSort _ _).mem_iff.mpr hv
  · intro hcoin
    rw [commitBlockFor]
    simp only
    rw [orderedProposals, if_pos hcoin]
    exact List.sorted_insertionSort _ _
  · intro hcoin
    rw [commitBlockFor]
    simp only
    rw [orderedProposals, if_neg (by simp [hcoin])]
    exact List.sorted_insertionSort _ _
  · intro v₂ hperm hinj
    exact (orderedProposals_perm_eq H s.validators (coinOf s message.epoch)
      hperm hinj).symm

/-- Witness for C7 at the concrete failing input: at `c7State` (no
`logger` attribute) the commit call never yields a state; on the same
state with the `logger` attribute supplied, the body stores the block
`commitBlockFor` computes for epoch 7 — and that block's proposal list
is EMPTY although proposer `"x"` is RBC-complete, because `"x"` is not
in the validator set and the coin branch filters by membership. -/
theorem c7_commit_block_content_and_crash_witness :
    (∀ s2, handle_commit (fun _ => [0]) c7State
        { epoch := 7, block_digest := [], quorum_cert := [] } ≠ .ok s2) ∧
    is_rbc_complete c7State 7 [120] = true ∧
    ([120] : PyStr) ∉ c7State.validators ∧
    alistGet (handle_commit_body (fun _ => [0]) { c7State with logger := true }
        { epoch := 7, block_digest := [], quorum_cert := [] }).committed_blocks 7 =
      some (commitBlockFor (fun _ => [0]) { c7State with logger := true } 7
        [([120], ⟨7, [120], [98, 98], [], 0, 0⟩)]) ∧
    commitBlockFor (fun _ => [0]) { c7State with logger := true } 7
        [([120], ⟨7, [120], [98, 98], [], 0, 0⟩)] =
      { block_digest := [48, 48], proposals := [], common_coin := some [99] } :=
  ⟨(c7_commit_block_content_and_crash (fun _ => [0]) c7State
      { epoch := 7, block_digest := [], quorum_cert := [] }
      [([120], ⟨7, [120], [98, 98], [], 0, 0⟩)] (by decide)).1,
   by decide, by decide,
   (c7_commit_block_content_and_crash (fun _ => [0])
      { c7State with logger := true }
      { epoch := 7, block_digest := [], quorum_cert := [] }
      [([120], ⟨7, [120], [98, 98], [], 0, 0⟩)] (by decide)).2.2.1,
   by rfl⟩

/-- `ConsensusModule.coin_threshold`, computed in `__init__` from the
*configured* `min_validators`, not from the actual validator count:
`min_validators // 3 * 2 + 1`.  The same value is the blacklist
quorum. -/
def cfgCoinThreshold (min_validators : Nat) : Nat :=
  min_validators / 3 * 2 + 1

/-- The supermajority threshold the claim states: `2f + 1` with
`f = ⌊(n − 1)/3⌋` for `n` validators (spec-side definition, for
comparison with the code's `cfgCoinThreshold`). -/
def claimThreshold (n : Nat) : Nat := 2 * ((n - 1) / 3) + 1

/-- `self._blacklist_votes[target]` (a `defaultdict(set)`). -/
def votesOf (s : ConsensusState) (target : PyStr) : List PyStr :=
  alistGetD s.blacklist_votes target []

/-- `self._blacklist_votes[message.target_validator_id].add(message.voter_id)`. -/
def recordVote (m : BlacklistVoteMsg) (s : ConsensusState) : ConsensusState :=
  { s with
    blacklist_votes :=
      alistSet s.blacklist_votes m.target_validator_id
        (setAdd (votesOf s m.target_validator_id) m.voter_id) }

/-- The eviction step of `handle_blacklist_vote`: add the target to the
blacklist set, remove it from the active validators (`list.remove`,
guarded by membership — a no-op on absent keys, like `List.erase`), and
delete its accumulated votes. -/
def blacklistTarget (target : PyStr) (s : ConsensusState) : ConsensusState :=
  { s with
    blacklisted_validators := s.blacklisted_validators ++ [target]
    validators := s.validators.erase target
    blacklist_votes := alistDel s.blacklist_votes target }

/-- The statements of `ConsensusModule.handle_blacklist_vote` past the
initial `self.logger` attribute lookup (the remaining `self.logger` use
is a no-op warning log): record the voter, then — if the distinct-voter
count has reached the threshold and the target is not already
blacklisted — evict the target. -/
def handle_blacklist_vote_body (thr : Nat) (s : ConsensusState)
    (m : BlacklistVoteMsg) : ConsensusState :=
  if thr ≤ (setAdd (votesOf s m.target_validator_id) m.voter_id).length then
    if m.target_validator_id ∈ s.blacklisted_validators then recordVote m s
    else blacklistTarget m.target_validator_id (recordVote m s)
  else recordVote m s

/-- `ConsensusModule.handle_blacklist_vote`: its first statement is
`self.logger.info(…)` (node.py:484), so when the `logger` attribute is
unset — as `ConsensusModule.__init__` leaves it — the call raises
`AttributeError` before recording any vote or touching any state;
otherwise the body runs. -/
def handle_blacklist_vote (thr : Nat) (s : ConsensusState)
    (m : BlacklistVoteMsg) : Except PyErr ConsensusState :=
  if s.logger then .ok (handle_blacklist_vote_body thr s m)
  else .error .attributeError

/-- The C6 failing-input pre-state: three active validators, fresh
consensus module (the configured `min_validators` is its default 3, and
`__init__` leaves the `logger` attribute unset). -/
def c6State : ConsensusState :=
  { current_epoch := 0
    validators := [[97], [98], [99]]
    proposals := []
    received_enc_chunks := []
    common_coin_value := []
    committed_blocks := []
    blacklisted_validators := []
    blacklist_votes := []
    logger := false }

/-- C6: the blacklist mechanism the claim describes never runs.  (1) With
the `logger` attribute unset, as `ConsensusModule.__init__` leaves it,
every `handle_blacklist_vote` call raises `AttributeError` at its first
statement, so no vote is ever recorded and no validator is ever added to
the blacklist — although with `n = 3` validators the claim's quorum
`2⌊(n−1)/3⌋ + 1 = 1` is already met by the single vote of the failing
input, that call yields no state at all.  (2) Even on a module whose
`logger` attribute has been supplied externally, the threshold is
`min_validators // 3 * 2 + 1 = 3` computed from the *configured*
`min_validators`, not `2⌊(n−1)/3⌋ + 1` from the actual validator count:
after the single vote (meeting the claimed quorum) the target has one
recorded voter and is still not blacklisted. -/
theorem c6_blacklist_vote_crashes_and_threshold_mismatch :
    (∀ (thr : Nat) (s : ConsensusState) (m : BlacklistVoteMsg),
      handle_blacklist_vote thr { s with logger := false } m =
        .error .attributeError) ∧
    (∀ (thr : Nat) (vs : List PyStr) (m : BlacklistVoteMsg),
      handle_blacklist_vote thr (consensus_init vs) m =
        .error .attributeError) ∧
    claimThreshold c6State.validators.length = 1 ∧
    (∀ s2, handle_blacklist_vote (cfgCoinThreshold 3) c6State
      ⟨0, [97], [98], []⟩ ≠ .ok s2) ∧
    cfgCoinThreshold 3 = 3 ∧
    (votesOf (handle_blacklist_vote_body (cfgCoinThreshold 3)
      { c6State with logger := true } ⟨0, [97], [98], []⟩) [98]).length = 1 ∧
    ([98] : PyStr) ∉ (handle_blacklist_vote_body (cfgCoinThreshold 3)
      { c6State with logger := true }
      ⟨0, [97], [98], []⟩).blacklisted_validators := by
  exact ⟨fun thr s m => rfl, fun thr vs m => rfl, by decide,
    fun s2 h => Except.noConfusion h, by decide, by decide, by decide⟩

theorem alistGet_alistDel_ne {κ α : Type} [DecidableEq κ]
    (l : List (κ × α)) (k k2 : κ) (h : k2 ≠ k) :
    alistGet (alistDel l k) k2 = alistGet l k2 := by
  induction l with
  | nil => rfl
  | cons p t ih =>
      by_cases hp : p.1 = k
      · have hp2 : ¬p.1 = k2 := by rw [hp]; exact fun hh => h hh.symm
        simp [alistDel, alistGet, hp, hp2, ih, Ne.symm h]
      · by_cases hp2 : p.1 = k2
        · simp [alistDel, alistGet, hp, hp2, h]
        · simp [alistDel, alistGet, hp, hp2, ih]

/-- The distinct voters against `target` accumulated over a message
trace (spec-side definition, following the claim's words). -/
def distinctVotersAgainst (target : PyStr) (msgs : List BlacklistVoteMsg) :
    List PyStr :=
  msgs.foldl
    (fun dv m => if m.target_validator_id = target then setAdd dv m.voter_id else dv)
    []

/-- The induction invariant for the C6 amended theorem, relating a
consensus state to the distinct voters `dv` seen so far against a fixed
target. -/
def C6Inv (thr : Nat) (target : PyStr) (s : ConsensusState)
    (dv : List PyStr) : Prop :=
  s.validators.Nodup ∧
  (target ∈ s.blacklisted_validators → target ∉ s.validators) ∧
  (target ∉ s.blacklisted_validators → votesOf s target = dv ∧ dv.length < thr) ∧
  (target ∈ s.blacklisted_validators → thr ≤ dv.length)

theorem c6_inv_step (thr : Nat) (target : PyStr) (s : ConsensusState)
    (dv : List PyStr) (m : BlacklistVoteMsg) (hinv : C6Inv thr target s dv) :
    C6Inv thr target (handle_blacklist_vote_body thr s m)
      (if m.target_validator_id = target then setAdd dv m.voter_id else dv) := by
  obtain ⟨hnd, hval, hout, hin⟩ := hinv
  have hvotesRec : ∀ t2, t2 ≠ m.target_validator_id →
      votesOf (recordVote m s) t2 = votesOf s t2 := by
    intro t2 ht2
    simp [votesOf, recordVote, alistGetD, alistGet_alistSet_ne _ _ _ _ ht2]
  have hvotesRecSelf :
      votesOf (recordVote m s) m.target_validator_id =
        setAdd (votesOf s m.target_validator_id) m.voter_id := by
    simp [votesOf, recordVote, alistGetD, alistGet_alistSet_self]
  by_cases hmt : m.target_validator_id = target
  · subst hmt
    rw [if_pos rfl]
    by_cases hbl : m.target_validator_id ∈ s.blacklisted_validators
    · have hstep : handle_blacklist_vote_body thr s m = recordVote m s := by
        rw [handle_blacklist_vote_body]
        split_ifs with h1
        · rfl
        · rfl
      rw [hstep]
      refine ⟨hnd, fun _ => hval hbl, fun hc => absurd hbl hc, fun _ => ?_⟩
      exact le_trans (hin hbl) (length_le_setAdd dv m.voter_id)
    · obtain ⟨hveq, hvlt⟩ := hout hbl
      rw [handle_blacklist_vote_body]
      by_cases h1 : thr ≤ (setAdd (votesOf s m.target_validator_id) m.voter_id).length
      · rw [if_pos h1, if_neg hbl]
        refine ⟨List.Nodup.erase _ hnd, fun _ => ?_, fun hc => ?_, fun _ => ?_⟩
        · show m.target_validator_id ∉ (recordVote m s).validators.erase _
          intro hc
          exact absurd rfl ((List.Nodup.mem_erase_iff hnd).mp hc).1
        · exact absurd (by simp [blacklistTarget]) hc
        · rw [hveq] at h1
          exact h1
      · rw [if_neg h1]
        refine ⟨hnd, fun hc => absurd hc hbl, fun _ => ⟨?_, ?_⟩, fun hc => absurd hc hbl⟩
        · rw [hvotesRecSelf, hveq]
        · rw [hveq] at h1
          exact lt_of_not_le h1
  · rw [if_neg hmt]
    have htne : target ≠ m.target_validator_id := fun hh => hmt hh.symm
    have hvotes2 : ∀ s2 : ConsensusState,
        s2.blacklist_votes = (recordVote m s).blacklist_votes →
        votesOf s2 target = votesOf s target := by
      intro s2 hs2
      rw [votesOf, alistGetD, hs2]
      exact hvotesRec target htne
    rw [handle_blacklist_vote_body]
    split_ifs with h1 h2
    · refine ⟨hnd, hval, fun hc => ?_, hin⟩
      rw [hvotes2 (recordVote m s) rfl]
      exact hout hc
    · refine ⟨List.Nodup.erase _ hnd, fun hbt => ?_, fun hc => ?_, fun hbt => ?_⟩
      · have hbt2 : target ∈ s.blacklisted_validators := by
          have hor : target ∈ s.blacklisted_validators ∨
              target = m.target_validator_id := by
            simpa [blacklistTarget, recordVote] using hbt
          rcases hor with h3 | h3
          · exact h3
          · exact absurd h3 htne
        show target ∉ ((recordVote m s).validators.erase m.target_validator_id)
        intro hc
        exact hval hbt2 (List.mem_of_mem_erase hc)
      · have hc2 : target ∉ s.blacklisted_validators := by
          intro hh
          exact hc (by simp [blacklistTarget, recordVote, hh])
        constructor
        · rw [votesOf, alistGetD]
          show (alistGet (alistDel (recordVote m s).blacklist_votes
            m.target_validator_id) target).getD [] = dv
          rw [alistGet_alistDel_ne _ _ _ htne]
          exact (hvotes2 (recordVote m s) rfl).trans (hout hc2).1
        · exact (hout hc2).2
      · have hor : target ∈ s.blacklisted_validators ∨
            target = m.target_validator_id := by
          simpa [blacklistTarget, recordVote] using hbt
        rcases hor with hbt2 | hbt2
        · exact hin hbt2
        · exact absurd hbt2 htne
    · refine ⟨hnd, hval, fun hc => ?_, hin⟩
      rw [hvotes2 (recordVote m s) rfl]
      exact hout hc

theorem alistGet_alistDel_self {κ α : Type} [DecidableEq κ]
    (l : List (κ × α)) (k : κ) : alistGet (alistDel l k) k = none := by
  induction l with
  | nil => rfl
  | cons p t ih =>
      by_cases hp : p.1 = k
      · simp [alistDel, alistGet, hp, ih]
      · simp [alistDel, alistGet, hp, ih]

/-- When a vote makes its target enter the blacklist, the target's
accumulated votes are cleared. -/
theorem c6_votes_cleared_on_entry (thr : Nat) (s : ConsensusState)
    (m : BlacklistVoteMsg)
    (hpre : m.target_validator_id ∉ s.blacklisted_validators)
    (hpost : m.target_validator_id ∈
      (handle_blacklist_vote_body thr s m).blacklisted_validators) :
    votesOf (handle_blacklist_vote_body thr s m) m.target_validator_id = [] := by
  rw [handle_blacklist_vote_body] at hpost ⊢
  by_cases h1 : thr ≤ (setAdd (votesOf s m.target_validator_id) m.voter_id).length
  · rw [if_pos h1] at hpost ⊢
    by_cases h2 : m.target_validator_id ∈ s.blacklisted_validators
    · exact absurd h2 hpre
    · rw [if_neg h2]
      rw [votesOf, alistGetD]
      show (alistGet (alistDel (recordVote m s).blacklist_votes
        m.target_validator_id) m.target_validator_id).getD [] = []
      rw [alistGet_alistDel_self]
      rfl
  · rw [if_neg h1] at hpost
    exact absurd hpost hpre

theorem c6_inv_fold (thr : Nat) (target : PyStr) :
    ∀ (msgs : List BlacklistVoteMsg) (s : ConsensusState) (dv : List PyStr),
      C6Inv thr target s dv →
      C6Inv thr target (msgs.foldl (handle_blacklist_vote_body thr) s)
        (msgs.foldl
          (fun dv2 m =>
            if m.target_validator_id = target then setAdd dv2 m.voter_id else dv2)
          dv) := by
  intro msgs
  induction msgs with
  | nil => intro s dv h; exact h
  | cons m rest ih =>
      intro s dv h
      exact ih _ _ (c6_inv_step thr target s dv m h)

/-- Supporting analysis of the post-lookup body: starting from a fresh
module state (no votes, no blacklist, duplicate-free validator list)
with the code's threshold `min_validators // 3 * 2 + 1` computed from
the *configured* `min_validators`, a target is in the blacklist after a
trace of body steps exactly when the number of distinct voters against
it in the trace has reached that threshold; a blacklisted target is no
longer in the active validator set; and a body step that makes its
target enter the blacklist clears the target's accumulated votes.
(Unlike the claim: the threshold is not `2⌊(n−1)/3⌋+1` for `n` actual
validators, and no pending consensus state is discarded — eviction
touches only the validator list, the blacklist set and the vote
store.) -/
theorem blacklist_body_quorum (min_validators : Nat)
    (init : ConsensusState) (msgs : List BlacklistVoteMsg) (target : PyStr)
    (hv : init.blacklist_votes = [])
    (hb : init.blacklisted_validators = [])
    (hnd : init.validators.Nodup) :
    (target ∈
        (msgs.foldl (handle_blacklist_vote_body (cfgCoinThreshold min_validators))
          init).blacklisted_validators ↔
      cfgCoinThreshold min_validators ≤
        (distinctVotersAgainst target msgs).length) ∧
    (target ∈
        (msgs.foldl (handle_blacklist_vote_body (cfgCoinThreshold min_validators))
          init).blacklisted_validators →
      target ∉
        (msgs.foldl (handle_blacklist_vote_body (cfgCoinThreshold min_validators))
          init).validators) ∧
    (∀ (s2 : ConsensusState) (m : BlacklistVoteMsg),
      m.target_validator_id ∉ s2.blacklisted_validators →
      m.target_validator_id ∈
        (handle_blacklist_vote_body (cfgCoinThreshold min_validators) s2
          m).blacklisted_validators →
      votesOf (handle_blacklist_vote_body (cfgCoinThreshold min_validators) s2 m)
        m.target_validator_id = []) := by
  have hinit : C6Inv (cfgCoinThreshold min_validators) target init [] := by
    refine ⟨hnd, fun hc => ?_, fun _ => ⟨?_, ?_⟩, fun hc => ?_⟩
    · rw [hb] at hc
      exact absurd hc (by simp)
    · simp [votesOf, hv, alistGetD, alistGet]
    · simp [cfgCoinThreshold]
    · rw [hb] at hc
      exact absurd hc (by simp)
  have hfold := c6_inv_fold (cfgCoinThreshold min_validators) target msgs init [] hinit
  obtain ⟨hnd2, hval2, hout2, hin2⟩ := hfold
  refine ⟨⟨fun hmem => hin2 hmem, fun hthr => ?_⟩, hval2,
    fun s2 m => c6_votes_cleared_on_entry (cfgCoinThreshold min_validators) s2 m⟩
  by_contra hnmem
  exact absurd hthr (not_le_of_lt (hout2 hnmem).2)

/-! ## `conductor/node.py` — `ConsensusModule.reach_consensus` -/

/-- `models.QuorumCertificate`. -/
structure QuorumCert : Type where
  epoch_or_day : Nat
  payload_hash : PyStr
  signatures : List (PyStr × PyStr)
  aggregated_signature : Option PyStr
  deriving DecidableEq, Repr

/-- `models.DayProof`. -/
structure DayProofMsg : Type where
  day_number : Nat
  proof : Bytes
  validator_id : Bytes
  signature : Bytes
  quorum_cert : Option QuorumCert
  deriving DecidableEq, Repr

/-- CPython `repr` of a 2-tuple of ASCII strings without quotes or
escapes: `('a', 'b')`. -/
def pyReprStrPair (p : PyStr × PyStr) : PyStr :=
  [40, 39] ++ p.1 ++ [39, 44, 32, 39] ++ p.2 ++ [39, 41]

/-- CPython `str` of a list of 2-tuples of such strings. -/
def pyReprPairList (l : List (PyStr × PyStr)) : PyStr :=
  [91] ++ List.intercalate [44, 32] (l.map pyReprStrPair) ++ [93]

/-- The Python tuple order used by `sorted(signatures.items())`. -/
def pairStrLe (p q : PyStr × PyStr) : Prop :=
  p.1 < q.1 ∨ (p.1 = q.1 ∧ p.2 ≤ q.2)

instance : DecidableRel pairStrLe := fun p q =>
  inferInstanceAs (Decidable (_ ∨ _))

/-- `ConsensusModule._generate_quorum_certificate`: the aggregated
signature is `blake3_hash(str(sorted(signatures.items())))`, or `""` for
an empty signature dict. -/
def generate_quorum_certificate (H : Bytes → Bytes) (epoch_or_day : Nat)
    (payload_hash : PyStr) (signatures : List (PyStr × PyStr)) : QuorumCert :=
  { epoch_or_day := epoch_or_day
    payload_hash := payload_hash
    signatures := signatures
    aggregated_signature :=
      some (if signatures.isEmpty then []
        else blake3HashStr H (pyReprPairList (List.insertionSort pairStrLe signatures))) }

/-- `ConsensusModule._verify_quorum_certificate`: only a signature
count against `coin_threshold`. -/
def verify_quorum_certificate (coin_threshold : Nat) (qc : QuorumCert) : Bool :=
  coin_threshold ≤ qc.signatures.length

/-- The per-proof validity test of `reach_consensus`: the VDF recomputes
to the proof bytes (for day numbers that fit 4 bytes), the Ed25519
signature verifies (abstracted as the Boolean oracle `sigOk`), and a
quorum certificate, when present, passes
`_verify_quorum_certificate`. -/
def dayProofValid (H : Bytes → Bytes) (sigOk : DayProofMsg → Bool)
    (genesis : Bytes) (iterations coin_threshold : Nat) (p : DayProofMsg) :
    Bool :=
  decide (p.proof = H^[iterations] (H (genesis ++ be32 p.day_number))) &&
    sigOk p &&
    (match p.quorum_cert with
     | none => true
     | some qc => verify_quorum_certificate coin_threshold qc)

/-- `ConsensusModule.reach_consensus`: its first statement is
`self.logger.info(…)` (node.py:564), so when the `logger` attribute of
the module is unset — as `ConsensusModule.__init__` leaves it, recorded
here by the Boolean parameter `logger` — every call raises
`AttributeError` before storing, collecting or validating anything.
Otherwise (the remaining `self.logger` uses at node.py:575/586/592 and
inside `_verify_signature` are no-op log statements): store the local
proof, merge peer proofs for validators not yet seen, filter the
collected proofs by VDF-recomputation, signature and (optional)
quorum-certificate checks, and return the FIRST valid proof as
canonical, decorated with a simulated quorum certificate collecting the
hex signatures of all valid proofs; raise `ConsensusError` when no proof
is valid.  The blacklist is never consulted and no byte-agreement count
is taken. -/
def reach_consensus (H : Bytes → Bytes) (sigOk : DayProofMsg → Bool)
    (logger : Bool) (genesis : Bytes) (iterations coin_threshold : Nat)
    (day_number : Nat) (local_proof : DayProofMsg)
    (peer_proofs : List DayProofMsg)
    (day_proofs : List (Bytes × DayProofMsg)) : Except PyErr DayProofMsg :=
  if logger = false then .error .attributeError else
  let d1 := alistSet day_proofs local_proof.validator_id local_proof
  let d2 := peer_proofs.foldl
    (fun d p => if (alistGet d p.validator_id).isSome then d
      else alistSet d p.validator_id p) d1
  let collected := d2.map (fun pr => pr.2)
  if collected.any (fun p => decide (4294967296 ≤ p.day_number)) then
    .error .overflowError
  else
    match collected.filter (dayProofValid H sigOk genesis iterations coin_threshold) with
    | [] => .error .consensusError
    | canonical :: rest =>
        let valid := canonical :: rest
        let sigs := valid.foldl
          (fun acc p => alistSet acc (bytesHex p.validator_id) (bytesHex p.signature)) []
        .ok { canonical with
          quorum_cert := some (generate_quorum_certificate H day_number
            (blake3HashBytes H canonical.proof) sigs) }

/-- The supermajority support the claim describes (spec-side definition):
the number of collected proofs that agree byte-for-byte with `value`,
carry a valid signature, and come from a non-blacklisted validator. -/
def specAgreementSupport (proofs : List DayProofMsg)
    (sigOk : DayProofMsg → Bool) (blacklisted : List Bytes)
    (value : Bytes) : Nat :=
  (proofs.filter
    (fun p => decide (p.proof = value) && sigOk p &&
      decide (p.validator_id ∉ blacklisted))).length

/-- The local proof of the C1 counterexample: validator `0x01` with the
correct VDF value `[42]` for day 1 under the constant hash oracle. -/
def c1Local : DayProofMsg := ⟨1, [42], [1], [0], none⟩

/-- The three peer proofs of the C1 counterexample: distinct validators
`0x02`, `0x03`, `0x04` publishing the (corrupted) value `[9]`. -/
def c1Peers : List DayProofMsg :=
  [⟨1, [9], [2], [0], none⟩, ⟨1, [9], [3], [0], none⟩, ⟨1, [9], [4], [0], none⟩]

/-- All four collected proofs of the C1 counterexample. -/
def c1Collected : List DayProofMsg := c1Local :: c1Peers

/-- C1: `reach_consensus` never applies the claimed supermajority rule.
(1) On the real module — `ConsensusModule.__init__` never assigns
`self.logger`, so the `logger` parameter is `false` — EVERY call raises
`AttributeError` at the first statement (node.py:564): no canonical
proof, supermajority-backed or not, is ever returned.  (2) Even with the
`logger` attribute supplied externally, the selection has no
supermajority logic: with `n = 4` validators (`f = ⌊(n−1)/3⌋ = 1`, so
the claim requires `2f + 1 = 3` agreeing proofs), one valid proof
(`[42]`) and three peers carrying a different value, the function
returns the first valid proof as canonical although only 1 of the 4
collected proofs agrees with its bytes — the code never counts byte
agreement (and never consults the blacklist): it picks
`valid_proofs[0]`. -/
theorem c1_reach_consensus_returns_proof_without_supermajority :
    (∀ (H : Bytes → Bytes) (sigOk : DayProofMsg → Bool) (genesis : Bytes)
      (iterations coin_threshold day_number : Nat)
      (local_proof : DayProofMsg) (peer_proofs : List DayProofMsg)
      (day_proofs : List (Bytes × DayProofMsg)),
      reach_consensus H sigOk false genesis iterations coin_threshold
        day_number local_proof peer_proofs day_proofs =
        .error .attributeError) ∧
    (∃ canonical,
      reach_consensus (fun _ => [42]) (fun _ => true) true [] 1 3 1
          c1Local c1Peers [] =
        .ok canonical ∧ canonical.proof = [42]) ∧
    c1Collected.length = 4 ∧
    specAgreementSupport c1Collected (fun _ => true) [] [42] = 1 ∧
    1 < 2 * 1 + 1 := by
  refine ⟨fun H sigOk g it ct d lp pp dp => rfl,
    ⟨⟨1, [42], [1], [0],
      some (generate_quorum_certificate (fun _ => [42]) 1
        (blake3HashBytes (fun _ => [42]) [42]) [([48, 49], [48, 48])])⟩,
      by rfl, by rfl⟩, by decide, by decide, by decide⟩

/-! ## `conductor/node.py` — `ValidatorNode._adjust_vdf_difficulty`

Python `float` arithmetic is modelled with exact rationals; the
counterexample below is chosen so that the exact quotient is an integer
(`86400 / 82800 × 82800 = 86400`), hence every faithful floating-point
evaluation of `int(iterations * adjustment_factor)` lands within 1 of it
and in particular differs from the unadjusted value. -/

/-- Python `int()` applied to a (modelled) float: truncation toward
zero. -/
def pyIntOfRat (q : ℚ) : Int := if 0 ≤ q then ⌊q⌋ else -⌊-q⌋

/-- `[t for t in ...values() if t > 0]`. -/
def positiveTimes (times : List ℚ) : List ℚ :=
  times.filter (fun t => decide (0 < t))

/-- `sorted(completion_times)[len(completion_times) // 2]` when
completion times exist, else the simulated default `23 * 3600`
seconds. -/
def medianOf (completion : List ℚ) : ℚ :=
  if completion.isEmpty then 82800
  else (List.insertionSort (fun a b => a ≤ b) completion).getD
    (completion.length / 2) 0

/-- The body of the adjustment branch: rescale
`iterations := int(iterations * (86400 / median))` whenever the median
is positive. -/
def adjustOnAdjustmentDay (times : List ℚ) (iterations : Nat) : Nat :=
  if 0 < medianOf (positiveTimes times) then
    (pyIntOfRat ((iterations : ℚ) * (86400 / medianOf (positiveTimes times)))).toNat
  else iterations

/-- `ValidatorNode._adjust_vdf_difficulty`: adjusts only when
`current_day` is a positive multiple of `adjustment_interval_days`
(assumed positive; `% 0` would raise in Python). -/
def adjust_vdf_difficulty (current_day interval : Nat) (times : List ℚ)
    (iterations : Nat) : Nat :=
  if 0 < current_day ∧ current_day % interval = 0 then
    adjustOnAdjustmentDay times iterations
  else iterations

/-- C9 counterexample: on adjustment day 10 (interval 10) with NO
observed completion times, the adjustment is not skipped — the code
substitutes the simulated 23-hour median (82800 s) and rescales 82800
iterations to 86400, leaving `iterations` changed. -/
theorem c9_no_observed_times_still_rescales :
    adjust_vdf_difficulty 10 10 [] 82800 = 86400 ∧ (86400 : Nat) ≠ 82800 := by
  constructor
  · rw [adjust_vdf_difficulty, if_pos (by norm_num)]
    rw [adjustOnAdjustmentDay]
    have hmed : medianOf (positiveTimes []) = 82800 := by
      simp [medianOf, positiveTimes]
    rw [hmed, if_pos (by norm_num)]
    have : ((82800 : Nat) : ℚ) * (86400 / 82800) = 86400 := by norm_num
    rw [this]
    norm_num [pyIntOfRat]
    rfl
  · decide

theorem countP_ge_of_sorted_prefix (p : ℚ → Bool) :
    ∀ (s : List ℚ) (n : Nat), n ≤ s.length →
      (∀ j : Fin s.length, (j : Nat) < n → p (s.get j)) →
      n ≤ s.countP p := by
  intro s
  induction s with
  | nil => intro n hn _; simpa using hn
  | cons a t ih =>
      intro n hn hp
      cases n with
      | zero => exact Nat.zero_le _
      | succ n2 =>
          have hpa : p a = true := hp ⟨0, by simp⟩ (Nat.succ_pos _)
          have ht : n2 ≤ t.countP p := by
            refine ih n2 (by simpa using hn) ?_
            intro j hj
            have hlt : ((⟨(j : Nat) + 1, by simpa using j.2⟩ :
                Fin (a :: t).length) : Nat) < n2 + 1 := by
              show (j : Nat) + 1 < n2 + 1
              omega
            have := hp _ hlt
            simpa using this
          rw [List.countP_cons, hpa]
          simpa using Nat.add_le_add ht (le_refl 1)

theorem countP_ge_of_sorted_suffix (p : ℚ → Bool) :
    ∀ (s : List ℚ) (n : Nat),
      (∀ j : Fin s.length, n ≤ (j : Nat) → p (s.get j)) →
      s.length - n ≤ s.countP p := by
  intro s
  induction s with
  | nil => intro n _; simp
  | cons a t ih =>
      intro n hp
      cases n with
      | zero =>
          have hall : ∀ x ∈ a :: t, p x = true := by
            intro x hx
            obtain ⟨j, hj⟩ := List.mem_iff_get.mp hx
            exact hj ▸ hp j (Nat.zero_le _)
          rw [List.countP_eq_length.mpr hall]
          simp
      | succ n2 =>
          have ht : t.length - n2 ≤ t.countP p := by
            refine ih n2 ?_
            intro j hj
            have hle : n2 + 1 ≤ ((⟨(j : Nat) + 1, by simpa using j.2⟩ :
                Fin (a :: t).length) : Nat) := by
              show n2 + 1 ≤ (j : Nat) + 1
              omega
            have := hp _ hle
            simpa using this
          rw [List.countP_cons]
          simp only [List.length_cons]
          omega

/-- C9 (amended): on a non-adjustment day `iterations` is unchanged; on
an adjustment day with no positive observed completion time, the code
does NOT skip — it rescales by the simulated default median of 82800
seconds (23 h); on an adjustment day with observed positive times, the
code rescales by `86400 / m` truncated to an integer, where `m` is a
genuine observed positive completion time that is an upper median (at
least half the observed times are `≤ m` and at least half are
`≥ m`). -/
theorem c9_vdf_adjustment_amended (current_day interval : Nat)
    (times : List ℚ) (iterations : Nat) :
    (¬(0 < current_day ∧ current_day % interval = 0) →
      adjust_vdf_difficulty current_day interval times iterations = iterations) ∧
    (0 < current_day → current_day % interval = 0 → positiveTimes times = [] →
      adjust_vdf_difficulty current_day interval times iterations =
        (pyIntOfRat ((iterations : ℚ) * (86400 / 82800))).toNat) ∧
    (0 < current_day → current_day % interval = 0 → positiveTimes times ≠ [] →
      ∃ m, m ∈ positiveTimes times ∧ 0 < m ∧
        (positiveTimes times).length + 1 ≤
          2 * (positiveTimes times).countP (fun t => decide (t ≤ m)) ∧
        (positiveTimes times).length ≤
          2 * (positiveTimes times).countP (fun t => decide (m ≤ t)) ∧
        adjust_vdf_difficulty current_day interval times iterations =
          (pyIntOfRat ((iterations : ℚ) * (86400 / m))).toNat) := by
  refine ⟨?_, ?_, ?_⟩
  · intro h
    rw [adjust_vdf_difficulty, if_neg h]
  · intro h1 h2 h3
    rw [adjust_vdf_difficulty, if_pos ⟨h1, h2⟩, adjustOnAdjustmentDay]
    have hmed : medianOf (positiveTimes times) = 82800 := by
      simp [medianOf, h3]
    rw [hmed, if_pos (by norm_num)]
  · intro h1 h2 h3
    set pos := positiveTimes times with hpos
    set s := List.insertionSort (fun a b => a ≤ b) pos with hs
    have hperm : s.Perm pos := List.perm_insertionSort _ _
    have hlen : s.length = pos.length := hperm.length_eq
    have hlpos : 0 < pos.length := List.length_pos.mpr h3
    have hidx : pos.length / 2 < s.length := by
      rw [hlen]
      omega
    have hmed : medianOf pos = s.get ⟨pos.length / 2, hidx⟩ := by
      rw [medianOf, if_neg (by simpa using h3)]
      rw [← hs, List.getD_eq_getElem s 0 hidx]
      rfl
    set m := s.get ⟨pos.length / 2, hidx⟩ with hm
    have hsorted : s.Sorted (fun a b => a ≤ b) :=
      List.sorted_insertionSort _ _
    have hmem : m ∈ pos :=
      hperm.mem_iff.mp (List.get_mem s (pos.length / 2) hidx)
    have hmpos : 0 < m := by
      have := List.mem_filter.mp (hpos ▸ hmem)
      exact of_decide_eq_true this.2
    refine ⟨m, hmem, hmpos, ?_, ?_, ?_⟩
    · have hcount : pos.length / 2 + 1 ≤ s.countP (fun t => decide (t ≤ m)) := by
        refine countP_ge_of_sorted_prefix _ s (pos.length / 2 + 1) (by omega) ?_
        intro j hj
        have hle : j ≤ (⟨pos.length / 2, hidx⟩ : Fin s.length) := by
          exact Fin.mk_le_mk.mpr (by omega) |>.trans_eq rfl
        exact decide_eq_true (List.Sorted.rel_get_of_le hsorted hle)
      have := hperm.countP_eq (fun t => decide (t ≤ m))
      omega
    · have hcount : s.length - pos.length / 2 ≤
          s.countP (fun t => decide (m ≤ t)) := by
        refine countP_ge_of_sorted_suffix _ s (pos.length / 2) ?_
        intro j hj
        have hle : (⟨pos.length / 2, hidx⟩ : Fin s.length) ≤ j :=
          Fin.mk_le_mk.mpr hj |>.trans_eq rfl
        exact decide_eq_true (List.Sorted.rel_get_of_le hsorted hle)
      have := hperm.countP_eq (fun t => decide (m ≤ t))
      omega
    · rw [adjust_vdf_difficulty, if_pos ⟨h1, h2⟩, adjustOnAdjustmentDay,
        ← hpos, hmed, if_pos hmpos]

/-- Witness for C9 (amended) at a concrete instance: day 10, interval
10, one observed completion time of 43200 s (12 h), 1000 iterations:
the median is the observed time and the result doubles to 2000. -/
theorem c9_vdf_adjustment_amended_witness :
    ∃ m, m ∈ positiveTimes [(43200 : ℚ)] ∧ 0 < m ∧
      (positiveTimes [(43200 : ℚ)]).length + 1 ≤
        2 * (positiveTimes [(43200 : ℚ)]).countP (fun t => decide (t ≤ m)) ∧
      (positiveTimes [(43200 : ℚ)]).length ≤
        2 * (positiveTimes [(43200 : ℚ)]).countP (fun t => decide (m ≤ t)) ∧
      adjust_vdf_difficulty 10 10 [(43200 : ℚ)] 1000 =
        (pyIntOfRat ((1000 : ℚ) * (86400 / m))).toNat :=
  (c9_vdf_adjustment_amended 10 10 [(43200 : ℚ)] 1000).2.2 (by norm_num)
    (by norm_num) (by norm_num [positiveTimes])

/-! ## `conductor/node.py` — `ValidatorStorage.has_proof` and
`ValidatorNode._sync_historical_proofs` -/

/-- The module-level names of `conductor/node.py`: every name its import
statements bind plus every module-level definition.  `has_proof`'s body
reads the bare name `proof` (instead of its `day_number` parameter);
`proof` is never assigned inside the function, so CPython compiles it as
a global load, which searches exactly this namespace and then the
builtins. -/
def nodePyGlobalNames : List String :=
  ["asyncio", "json", "logging", "pickle", "time", "defaultdict", "asdict",
   "dataclass", "datetime", "timedelta", "timezone", "Any", "Dict", "List",
   "Optional", "Set", "nacl", "lmdb", "grpc", "concurrent", "random",
   "conductor_pb2", "conductor_pb2_grpc", "GENESIS_SEED",
   "GENESIS_TIMESTAMP", "SECONDS_PER_DAY", "VDF_ITERATIONS_PER_DAY",
   "ChorusVDF", "APExportNotice", "CoinShare", "Commit", "ConsensusError",
   "DayProof", "EncShare", "Event", "MembershipChange",
   "MembershipChangeMessage", "Message", "ModerationEvent", "PostAnnounce",
   "RBCPropose", "UserRegistration", "EventBatch", "BlacklistVote",
   "QuorumCertificate", "Config", "load_config", "blake3_hash",
   "ThresholdCrypto", "logger", "ValidatorStorage", "DHTNetwork",
   "ConsensusModule", "ConductorService", "ValidatorNode"]

/-- No CPython builtin is named `proof`. -/
def builtinsContainProof : Bool := false

/-- `ValidatorStorage.has_proof`: its first statement evaluates the
f-string `f"proof:day:{proof.day_number}"`, whose free name `proof`
resolves against the module globals and the builtins; if it resolved,
the method would continue with the LMDB lookup, passed in here as
`rest`.  It never does: the lookup raises `NameError`. -/
def has_proof (rest : Except PyErr Bool) (_day_number : Nat) :
    Except PyErr Bool :=
  if "proof" ∈ nodePyGlobalNames ∨ builtinsContainProof = true then rest
  else .error .nameError

/-- The loop `for day in range(0, 1000): if await self.storage.has_proof(day): …`
of the local-storage branch of `_sync_historical_proofs`, tracking
`highest_local_day` and stopping at the first gap; an exception from
`has_proof` propagates. -/
def scanLocalDays (rest : Except PyErr Bool) :
    Nat → Nat → Int → Except PyErr Int
  | 0, _, acc => .ok acc
  | fuel + 1, day, acc =>
      match has_proof rest day with
      | .error e => .error e
      | .ok true => scanLocalDays rest fuel (day + 1) (day : Int)
      | .ok false => .ok acc

/-- The local-storage branch of `_sync_historical_proofs` (taken when the
DHT has no canonical proofs): scan days 0..999 and return
`highest_local_day + 1` as the next day to compute. -/
def sync_local_scan (rest : Except PyErr Bool) : Except PyErr Int :=
  (scanLocalDays rest 1000 0 (-1)).map (fun h => h + 1)

/-- C10: `has_proof` raises `NameError` on every call — its body reads
the undefined name `proof` (not in the module globals, not a builtin) —
so it never returns a Boolean, whatever the storage lookup `rest` would
have produced; consequently the local-storage scan of
`_sync_historical_proofs` raises `NameError` on its first iteration
whenever that branch is reached. -/
theorem c10_has_proof_always_raises_name_error :
    (∀ (rest : Except PyErr Bool) (day : Nat),
      has_proof rest day = .error .nameError) ∧
    (∀ rest : Except PyErr Bool, sync_local_scan rest = .error .nameError) := by
  have hname : ¬("proof" ∈ nodePyGlobalNames ∨ builtinsContainProof = true) := by
    decide
  constructor
  · intro rest day
    rw [has_proof, if_neg hname]
  · intro rest
    rw [sync_local_scan, scanLocalDays, has_proof, if_neg hname]
    rfl

end Conductor
